import Mathlib

/-!
Verification development for the conflict-classification and solution-ranking
engine of the `mcp-dependency-doctor` repository.

The repository's decision logic lives in:
* `src/tools/detect-conflicts.ts` — the conflict classifier (`detectConflicts`
  and the per-type check functions);
* `src/utils/index.ts` — thin wrappers over the `semver` npm library
  (`satisfiesVersion`, `getMaxSatisfying`);
* `src/tools/apply-fix.ts` — the solution generator and comparison ranker
  (`generatePackageSolutions`, `generateComparison`);
* `src/tools/detect-environment.ts` — `isNodeVersionSatisfied`, the simplified
  node-engine comparator;
* `src/core/package-manager/detector.ts` — `getOverrides`/`flattenOverrides`.

Everything below is a shallow embedding of that TypeScript: JavaScript objects
and `Map`s become insertion-ordered association lists, `Set`s become
insertion-ordered duplicate-free lists, the `Math.random`-based `generateId`
becomes an explicit id-oracle `IdGen` threaded with a call counter, and the
outputs of I/O collaborators (executed package-manager commands, the registry
client, `process.version`) become explicit parameters.

The `semver` npm library itself (used by `satisfiesVersion` and
`getMaxSatisfying`) is modelled from node-semver's behaviour: version parsing
with pre-release identifiers, comparator sets obtained by desugaring
caret/tilde/x-range syntax, precedence comparison, and the internal
`try { new Range(range) } catch { ... }` in `satisfies`/`maxSatisfying` that
makes both total on malformed ranges.  Hyphen ranges and a few exotic range
forms are outside the modelled grammar (they parse to `none` here); no claim
depends on them.
-/

namespace DepDoctor

/-! ## Generic three-way comparison infrastructure -/

/-- Three-way comparison on naturals. -/
def natCmp (a b : Nat) : Ordering :=
  if a < b then .lt else if b < a then .gt else .eq

/-- Lexicographic combination of two comparison results. -/
def ordThen (a b : Ordering) : Ordering :=
  match a with
  | .eq => b
  | o => o

/-- A comparator that behaves like the comparison function of a linear
order: `eq` exactly on equal elements, and `lt` transitive. -/
structure IsCmp {α : Type} (f : α → α → Ordering) : Prop where
  eq_iff : ∀ a b, (f a b = .eq ↔ a = b)
  lt_trans : ∀ {a b c}, f a b = .lt → f b c = .lt → f a c = .lt

/-- Three-way comparison on characters by code point (JS code-unit order on
ASCII agrees with this). -/
def charCmp (a b : Char) : Ordering := natCmp a.toNat b.toNat

/-- Lexicographic comparison of lists, shorter prefix first. -/
def listCmp {α : Type} (f : α → α → Ordering) : List α → List α → Ordering
  | [], [] => .eq
  | [], _ :: _ => .lt
  | _ :: _, [] => .gt
  | a :: as, b :: bs => ordThen (f a b) (listCmp f as bs)

/-! ## Semver model: versions

Modelled from the node-semver library used by `src/utils/index.ts`.
A parsed version records the numeric `major.minor.patch` triple and the
pre-release identifier list (numeric or alphanumeric); build metadata is
validated by the parser but does not participate in precedence.
-/

/-- A single pre-release identifier: numeric or alphanumeric. -/
inductive PreId where
  | num (n : Nat)
  | str (s : String)
deriving DecidableEq, Repr

/-- A parsed semantic version. -/
structure SemVer where
  major : Nat
  minor : Nat
  patch : Nat
  pre : List PreId
deriving DecidableEq, Repr

/-- Code-unit-order comparison on strings (as JS string `<`). -/
def strCmp (a b : String) : Ordering := listCmp charCmp a.data b.data

/-- Identifier comparison in pre-release tags: numeric identifiers sort below
alphanumeric ones; numeric compare as numbers, alphanumeric in code-unit
order. -/
def pidCmp : PreId → PreId → Ordering
  | .num a, .num b => natCmp a b
  | .num _, .str _ => .lt
  | .str _, .num _ => .gt
  | .str a, .str b => strCmp a b

/-- Pre-release list comparison: a version without pre-release identifiers
sorts above any version carrying them; two non-empty lists compare
identifier-wise, shorter list first on ties. -/
def preCmp (a b : List PreId) : Ordering :=
  match a, b with
  | [], [] => .eq
  | [], _ :: _ => .gt
  | _ :: _, [] => .lt
  | x :: xs, y :: ys => listCmp pidCmp (x :: xs) (y :: ys)

/-- The node-semver precedence comparison: numeric `major.minor.patch`
lexicographically, then pre-release identifiers (a pre-release sorts below
its release). -/
def compareVers (a b : SemVer) : Ordering :=
  ordThen (natCmp a.major b.major)
    (ordThen (natCmp a.minor b.minor)
      (ordThen (natCmp a.patch b.patch) (preCmp a.pre b.pre)))

/-! ## Semver model: version parsing -/

/-- Whitespace test used for trimming (ASCII whitespace). -/
def isWS (c : Char) : Bool :=
  c = ' ' || c = '\t' || c = '\n' || c = '\r'

/-- Trim leading and trailing whitespace from a character list. -/
def trimWS (cs : List Char) : List Char :=
  ((cs.dropWhile isWS).reverse.dropWhile isWS).reverse

/-- A character allowed inside a semver identifier: `[0-9A-Za-z-]`. -/
def isIdChar (c : Char) : Bool :=
  c.isAlpha || c.isDigit || c = '-'

/-- Numeric value of a digit list. -/
def digitsVal (cs : List Char) : Nat :=
  cs.foldl (fun acc c => 10 * acc + (c.toNat - 48)) 0

/-- A strict numeric identifier: digits only, no leading zero. -/
def isNumId (cs : List Char) : Bool :=
  match cs with
  | [] => false
  | ['0'] => true
  | c :: rest => c.isDigit && c ≠ '0' && rest.all Char.isDigit

/-- Split a character list on a single separator character. -/
def splitOnCharCL (sep : Char) (cs : List Char) : List (List Char) :=
  cs.foldr
    (fun ch acc =>
      match acc with
      | [] => [[ch]]
      | cur :: rest => if ch = sep then [] :: (cur :: rest) else (ch :: cur) :: rest)
    [[]]

/-- Split at the first occurrence of a character; `none` if absent. -/
def breakAtChar (sep : Char) (cs : List Char) : List Char × Option (List Char) :=
  let front := cs.takeWhile (· ≠ sep)
  match cs.dropWhile (· ≠ sep) with
  | [] => (front, none)
  | _ :: rest => (front, some rest)

/-- Parse one pre-release identifier (node-semver rules: non-empty,
`[0-9A-Za-z-]` only, all-digit identifiers must have no leading zero and are
numeric). -/
def parsePreId (cs : List Char) : Option PreId :=
  if cs.isEmpty then none
  else if !cs.all isIdChar then none
  else if cs.all Char.isDigit then
    if isNumId cs then some (.num (digitsVal cs)) else none
  else some (.str (String.mk cs))

/-- Parse a strict numeric `major`/`minor`/`patch` component. -/
def parseNumComp (cs : List Char) : Option Nat :=
  if isNumId cs then some (digitsVal cs) else none

/-- Validate one build-metadata identifier (non-empty, `[0-9A-Za-z-]`). -/
def isBuildId (cs : List Char) : Bool :=
  !cs.isEmpty && cs.all isIdChar

/-- Parse a full semver version (node-semver's strict grammar with optional
leading `v`): numeric triple, optional `-`-introduced pre-release identifier
list, optional `+`-introduced build metadata (validated, ignored for
precedence). -/
def parseVersionCL (cs0 : List Char) : Option SemVer :=
  let cs1 := trimWS cs0
  let cs := match cs1 with
    | 'v' :: rest => rest
    | other => other
  let (core, build) := breakAtChar '+' cs
  let buildOk := match build with
    | none => true
    | some b => (splitOnCharCL '.' b).all isBuildId
  if !buildOk then none
  else
    let (main, preStr) := breakAtChar '-' core
    match (splitOnCharCL '.' main).mapM parseNumComp with
    | some [mj, mn, pt] =>
      match preStr with
      | none => some ⟨mj, mn, pt, []⟩
      | some p =>
        match (splitOnCharCL '.' p).mapM parsePreId with
        | some ids => some ⟨mj, mn, pt, ids⟩
        | none => none
    | _ => none

/-- `semver.parse`-style entry point on strings. -/
def parseVersion (s : String) : Option SemVer :=
  parseVersionCL s.data

/-! ## Semver model: ranges

A range is a disjunction (`||`) of comparator sets.  Caret, tilde and
x-range/partial-version syntax desugar to primitive comparators exactly as in
node-semver (upper bounds carry the `-0` pre-release marker).  Hyphen ranges
and other exotic forms are outside the modelled grammar and parse to `none`.
-/

/-- A primitive comparator operator. -/
inductive CompOp where
  | lt
  | le
  | gt
  | ge
  | eq
deriving DecidableEq, Repr

/-- A primitive comparator: operator and version. -/
structure Comparator where
  op : CompOp
  ver : SemVer
deriving DecidableEq, Repr

/-- A conjunction of comparators (one `||`-alternative); the empty set
matches every non-pre-release version (`*`). -/
abbrev CompSet := List Comparator

/-- A full range: disjunction of comparator sets. -/
abbrev SemRange := List CompSet

/-- A partial version as written in range syntax: missing or wildcard
components are `none` (a missing/wildcard component forces the later ones to
count as missing too). -/
structure PVer where
  major : Option Nat
  minor : Option Nat
  patch : Option Nat
  pre : List PreId
deriving DecidableEq, Repr

/-- Parse one version component of a range token: wildcard or strict
number.  Outer `none` is a parse failure, inner `none` a wildcard. -/
def parseXComp (cs : List Char) : Option (Option Nat) :=
  match cs with
  | ['x'] => some none
  | ['X'] => some none
  | ['*'] => some none
  | _ => match parseNumComp cs with
    | some n => some (some n)
    | none => none

/-- Parse a (possibly partial) version occurring in a range token. -/
def parsePVerCL (cs : List Char) : Option PVer :=
  let (core, build) := breakAtChar '+' cs
  let buildOk := match build with
    | none => true
    | some b => (splitOnCharCL '.' b).all isBuildId
  if !buildOk then none
  else
    let (main, preStr) := breakAtChar '-' core
    let comps := splitOnCharCL '.' main
    match comps.mapM parseXComp with
    | none => none
    | some xs =>
      let norm : Option (Option Nat × Option Nat × Option Nat) :=
        match xs with
        | [mj] => some (mj, none, none)
        | [mj, mn] => some (mj, mj.bind fun _ => mn, none)
        | [mj, mn, pt] =>
          some (mj, mj.bind fun _ => mn,
            (mj.bind fun _ => mn).bind fun _ => pt)
        | _ => none
      match norm with
      | none => none
      | some (mj, mn, pt) =>
        match preStr with
        | none => some ⟨mj, mn, pt, []⟩
        | some p =>
          /- a pre-release is only allowed on a fully numeric triple -/
          if mj.isSome && mn.isSome && pt.isSome then
            match (splitOnCharCL '.' p).mapM parsePreId with
            | some ids => some ⟨mj, mn, pt, ids⟩
            | none => none
          else none

/-- The `-0` upper-bound marker used by desugared ranges. -/
def zeroPre : List PreId := [.num 0]

/-- Desugar a plain or `=`-prefixed (partial) version to comparators
(node-semver x-range replacement). -/
def xrangeSet (pv : PVer) : CompSet :=
  match pv.major with
  | none => []
  | some mj =>
    match pv.minor with
    | none => [⟨.ge, ⟨mj, 0, 0, []⟩⟩, ⟨.lt, ⟨mj + 1, 0, 0, zeroPre⟩⟩]
    | some mn =>
      match pv.patch with
      | none => [⟨.ge, ⟨mj, mn, 0, []⟩⟩, ⟨.lt, ⟨mj, mn + 1, 0, zeroPre⟩⟩]
      | some pt => [⟨.eq, ⟨mj, mn, pt, pv.pre⟩⟩]

/-- Desugar a caret range (`^`). -/
def caretSet (pv : PVer) : CompSet :=
  match pv.major with
  | none => []
  | some mj =>
    let mn0 := pv.minor.getD 0
    let pt0 := pv.patch.getD 0
    let lo : SemVer := ⟨mj, mn0, pt0, pv.pre⟩
    let hi : SemVer :=
      if mj > 0 || pv.minor.isNone then ⟨mj + 1, 0, 0, zeroPre⟩
      else if mn0 > 0 || pv.patch.isNone then ⟨mj, mn0 + 1, 0, zeroPre⟩
      else ⟨mj, mn0, pt0 + 1, zeroPre⟩
    [⟨.ge, lo⟩, ⟨.lt, hi⟩]

/-- Desugar a tilde range (`~`). -/
def tildeSet (pv : PVer) : CompSet :=
  match pv.major with
  | none => []
  | some mj =>
    match pv.minor with
    | none => [⟨.ge, ⟨mj, 0, 0, []⟩⟩, ⟨.lt, ⟨mj + 1, 0, 0, zeroPre⟩⟩]
    | some mn =>
      [⟨.ge, ⟨mj, mn, pv.patch.getD 0, pv.pre⟩⟩,
       ⟨.lt, ⟨mj, mn + 1, 0, zeroPre⟩⟩]

/-- Desugar an explicit comparator (`>=`, `>`, `<=`, `<`) over a possibly
partial version, as node-semver's x-range replacement does. -/
def opSet (op : CompOp) (pv : PVer) : CompSet :=
  match op with
  | .ge =>
    match pv.major with
    | none => []
    | some mj => [⟨.ge, ⟨mj, pv.minor.getD 0, pv.patch.getD 0, pv.pre⟩⟩]
  | .gt =>
    match pv.major with
    | none => [⟨.lt, ⟨0, 0, 0, zeroPre⟩⟩]
    | some mj =>
      match pv.minor with
      | none => [⟨.ge, ⟨mj + 1, 0, 0, []⟩⟩]
      | some mn =>
        match pv.patch with
        | none => [⟨.ge, ⟨mj, mn + 1, 0, []⟩⟩]
        | some pt => [⟨.gt, ⟨mj, mn, pt, pv.pre⟩⟩]
  | .le =>
    match pv.major with
    | none => []
    | some mj =>
      match pv.minor with
      | none => [⟨.lt, ⟨mj + 1, 0, 0, zeroPre⟩⟩]
      | some mn =>
        match pv.patch with
        | none => [⟨.lt, ⟨mj, mn + 1, 0, zeroPre⟩⟩]
        | some pt => [⟨.le, ⟨mj, mn, pt, pv.pre⟩⟩]
  | .lt =>
    match pv.major with
    | none => [⟨.lt, ⟨0, 0, 0, zeroPre⟩⟩]
    | some mj =>
      match pv.minor with
      | none => [⟨.lt, ⟨mj, 0, 0, zeroPre⟩⟩]
      | some mn =>
        match pv.patch with
        | none => [⟨.lt, ⟨mj, mn, 0, zeroPre⟩⟩]
        | some pt => [⟨.lt, ⟨mj, mn, pt, pv.pre⟩⟩]
  | .eq => xrangeSet pv

/-- Parse one whitespace-delimited range token into comparators. -/
def parseSimpleCL (cs : List Char) : Option CompSet :=
  match cs with
  | '>' :: '=' :: rest => (parsePVerCL rest).map (opSet .ge)
  | '<' :: '=' :: rest => (parsePVerCL rest).map (opSet .le)
  | '>' :: rest => (parsePVerCL rest).map (opSet .gt)
  | '<' :: rest => (parsePVerCL rest).map (opSet .lt)
  | '=' :: rest => (parsePVerCL rest).map xrangeSet
  | '^' :: rest => (parsePVerCL rest).map caretSet
  | '~' :: rest => (parsePVerCL rest).map tildeSet
  | other => (parsePVerCL other).map xrangeSet

/-- Split a character list on whitespace. -/
def splitWSCL (cs : List Char) : List (List Char) :=
  splitOnCharCL ' ' ((cs.map fun c => if isWS c then ' ' else c))

/-- Parse one `||`-alternative: every token must parse; the comparators
concatenate.  An empty alternative is the match-all set. -/
def parseSetCL (cs : List Char) : Option CompSet :=
  let toks := (splitWSCL cs).filter (fun t => !t.isEmpty)
  toks.foldr
    (fun t acc =>
      match parseSimpleCL t, acc with
      | some s, some a => some (s ++ a)
      | _, _ => none)
    (some [])

/-- Split on a multi-character separator (fuelled left scan). -/
def splitOnSubGo (sep : List Char) : Nat → List Char → List Char → List (List Char)
  | 0, acc, _ => [acc.reverse]
  | _ + 1, acc, [] => [acc.reverse]
  | fuel + 1, acc, c :: cs =>
    if sep.isPrefixOf (c :: cs) then
      acc.reverse :: splitOnSubGo sep fuel [] ((c :: cs).drop sep.length)
    else
      splitOnSubGo sep fuel (c :: acc) cs

/-- Split on a multi-character separator. -/
def splitOnSub (sep cs : List Char) : List (List Char) :=
  splitOnSubGo sep (cs.length + 1) [] cs

/-- Parse a range string: `||`-separated alternatives, each a
whitespace-separated list of simple tokens.  `none` models the
`new Range(range)` constructor throwing on malformed input. -/
def parseRange (s : String) : Option SemRange :=
  (splitOnSub ['|', '|'] s.data).mapM (fun part => parseSetCL (trimWS part))

/-- Does the ordering result satisfy the comparator operator? -/
def cmpOpTest (op : CompOp) (o : Ordering) : Bool :=
  match op with
  | .lt => o == .lt
  | .le => o != .gt
  | .gt => o == .gt
  | .ge => o != .lt
  | .eq => o == .eq

/-- Test a version against one comparator. -/
def compTest (c : Comparator) (v : SemVer) : Bool :=
  cmpOpTest c.op (compareVers v c.ver)

/-- Same `major.minor.patch` triple. -/
def sameTupleB (a b : SemVer) : Bool :=
  a.major == b.major && a.minor == b.minor && a.patch == b.patch

/-- Test a version against one comparator set, including node-semver's
pre-release rule: a version with pre-release identifiers only satisfies the
set if some comparator mentions a pre-release on the same triple. -/
def setTest (cs : CompSet) (v : SemVer) : Bool :=
  cs.all (fun c => compTest c v) &&
    (v.pre.isEmpty ||
      cs.any (fun c => !c.ver.pre.isEmpty && sameTupleB c.ver v))

/-- Test a version against a range (disjunction of sets). -/
def rangeTest (r : SemRange) (v : SemVer) : Bool :=
  r.any (fun cs => setTest cs v)

/-- node-semver `satisfies(version, range)`: `false` when the range is
malformed (the library catches the `Range` constructor) or the version does
not parse. -/
def semverSatisfies (version range : String) : Bool :=
  match parseRange range with
  | none => false
  | some r =>
    match parseVersion version with
    | none => false
    | some v => rangeTest r v

/-- `satisfiesVersion` from `src/utils/index.ts`: wraps `semver.satisfies`
in `try { ... } catch { return false }`; the library call is itself total,
so the wrapper returns exactly the library's answer. -/
def satisfiesVersion (version range : String) : Bool :=
  semverSatisfies version range

/-- Model of the throwing `new Range(range)` constructor. -/
def rangeExc (range : String) : Except String SemRange :=
  match parseRange range with
  | some r => Except.ok r
  | none => Except.error ("Invalid range: " ++ range)

/-- One step of node-semver `maxSatisfying`'s scan: skip unparseable or
non-satisfying versions, keep the running maximum under precedence. -/
def maxSatStep (r : SemRange) (acc : Option (String × SemVer)) (v : String) :
    Option (String × SemVer) :=
  match parseVersion v with
  | none => acc
  | some sv =>
    if rangeTest r sv then
      match acc with
      | none => some (v, sv)
      | some (m, msv) =>
        if compareVers msv sv = .lt then some (v, sv) else some (m, msv)
    else acc

/-- node-semver `maxSatisfying(versions, range)`: builds the `Range` inside
an internal `try`/`catch` and returns `null` when it throws, otherwise scans
the version list keeping the maximum satisfying version. -/
def maxSatisfyingLib (versions : List String) (range : String) :
    Except String (Option String) :=
  match rangeExc range with
  | Except.error _ => Except.ok none
  | Except.ok r =>
    Except.ok ((versions.foldl (maxSatStep r) none).map Prod.fst)

/-- `getMaxSatisfying` from `src/utils/index.ts`: calls
`semver.maxSatisfying` directly, with no `try`/`catch` of its own. -/
def getMaxSatisfying (versions : List String) (range : String) :
    Except String (Option String) :=
  maxSatisfyingLib versions range

/-! ## Correctness of the maxSatisfying scan -/

/-- Invariant of `maxSatisfying`'s scan over the versions seen so far:
either no version seen satisfies the range, or the accumulator holds a
satisfying version maximal under precedence among those seen. -/
def FoldInv (r : SemRange) (seen : List String) :
    Option (String × SemVer) → Prop
  | none => ∀ v ∈ seen, ∀ sv, parseVersion v = some sv → rangeTest r sv = false
  | some (m, msv) =>
    m ∈ seen ∧ parseVersion m = some msv ∧ rangeTest r msv = true ∧
      ∀ v ∈ seen, ∀ sv, parseVersion v = some sv → rangeTest r sv = true →
        compareVers msv sv ≠ .lt

/-! ## The conflict classifier (`src/tools/detect-conflicts.ts`)

Data model for `ConflictIssue` and the inputs of `detectConflicts`.  The
`Math.random`-based `generateId` becomes an id oracle `IdGen` consulted at an
explicit call counter; the executed package-manager listing commands become
`PeerExecResult`/`LsExecResult` parameters (their stdout given at the
granularity of the `JSON.parse` outcome); `process.version` becomes the
`currentNode` parameter.
-/

/-- Issue severity. -/
inductive Severity where
  | error
  | warning
  | info
deriving DecidableEq, Repr

/-- The conflict-type enumeration of `detect-conflicts.ts`. -/
inductive ConflictType where
  | version_conflict
  | peer_dependency
  | multiple_versions
  | workspace_mismatch
  | override_risk
  | engine_mismatch
  | deprecated
  | missing_dependency
deriving DecidableEq, Repr

/-- `details.peerDependency` payload. -/
structure PeerDetail where
  host : String
  hostVersion : String
  peerPackage : String
  required : String
  installed : Option String
deriving DecidableEq, Repr

/-- One entry of `details.multipleVersions`. -/
structure MultiVerDetail where
  version : String
  paths : List String
deriving DecidableEq, Repr

/-- One entry of `details.workspaceMismatch`. -/
structure WsMismatchDetail where
  workspace : String
  localVersion : String
  usedVersions : List String
deriving DecidableEq, Repr

/-- `details.overrideRisk` payload. -/
structure OverrideDetail where
  package : String
  forcedVersion : String
  originalRequirements : List String
  potentialBreaking : Bool
deriving DecidableEq, Repr

/-- `details.engineMismatch` payload. -/
structure EngineDetail where
  package : String
  required : String
  current : String
  field : String
deriving DecidableEq, Repr

/-- The optional `details` object of an issue. -/
structure IssueDetails where
  peerDependency : Option PeerDetail := none
  multipleVersions : Option (List MultiVerDetail) := none
  workspaceMismatch : Option (List WsMismatchDetail) := none
  overrideRisk : Option OverrideDetail := none
  engineMismatch : Option EngineDetail := none
deriving DecidableEq, Repr

/-- A `ConflictIssue` record. -/
structure ConflictIssue where
  id : String
  type : ConflictType
  severity : Severity
  package : String
  message : String
  details : IssueDetails
  affectedPaths : List String
  suggestedAction : String
deriving DecidableEq, Repr

/-- The id oracle standing in for `Math.random`-based `generateId`; the
`Nat` argument is the global call counter. -/
abbrev IdGen := Nat → String

/-- A `package.json` overrides object: an insertion-ordered record whose
values are either version strings or nested override objects. -/
inductive OvMap where
  | nil
  | consLeaf (key value : String) (rest : OvMap)
  | consNode (key : String) (sub : OvMap) (rest : OvMap)
deriving DecidableEq, Repr

/-- The `engines` object of `package.json` (only `node` is consumed). -/
structure EnginesField where
  node : Option String := none
deriving DecidableEq, Repr

/-- The fields of `package.json` consumed by the classifier. -/
structure PackageJson where
  name : String := ""
  version : String := ""
  dependencies : List (String × String) := []
  devDependencies : List (String × String) := []
  engines : Option EnginesField := none
  overrides : Option OvMap := none
  pnpmOverrides : Option (List (String × String)) := none
  resolutions : Option (List (String × String)) := none
deriving DecidableEq, Repr

/-- One workspace member as produced by `getWorkspacePackages`. -/
structure WorkspaceInfo where
  name : String
  path : String
  relativePath : String
  version : String
  packageJson : PackageJson
deriving DecidableEq, Repr

/-- JS object-assignment on an insertion-ordered record: update in place or
append. -/
def upsertStr (m : List (String × String)) (k v : String) :
    List (String × String) :=
  match m with
  | [] => [(k, v)]
  | (k0, v0) :: rest =>
    if k0 = k then (k0, v) :: rest else (k0, v0) :: upsertStr rest k v

/-- `Object.assign(result, src)` over string records. -/
def objAssign (result src : List (String × String)) : List (String × String) :=
  src.foldl (fun acc kv => upsertStr acc kv.1 kv.2) result

/-- `flattenOverrides` from `detector.ts`: depth-first flattening of nested
override objects, joining ancestor paths with `>`. -/
def flattenOverrides (ov : OvMap) (result : List (String × String))
    (pfx : String) : List (String × String) :=
  match ov with
  | .nil => result
  | .consLeaf k v rest =>
    let fullKey := if pfx.isEmpty then k else pfx ++ ">" ++ k
    flattenOverrides rest (upsertStr result fullKey v) pfx
  | .consNode k sub rest =>
    let fullKey := if pfx.isEmpty then k else pfx ++ ">" ++ k
    flattenOverrides rest (flattenOverrides sub result fullKey) pfx

/-- `getOverrides` from `detector.ts`. -/
def getOverrides (packageJson : PackageJson) (pm : String) :
    List (String × String) :=
  if pm = "npm" then
    match packageJson.overrides with
    | some ov => flattenOverrides ov [] ""
    | none => []
  else if pm = "pnpm" then
    let r1 := match packageJson.pnpmOverrides with
      | some o => objAssign [] o
      | none => []
    match packageJson.overrides with
    | some ov => flattenOverrides ov r1 ""
    | none => r1
  else if pm = "yarn" then
    match packageJson.resolutions with
    | some o => objAssign [] o
    | none => []
  else []

/-- Join a string list with a separator (JS `Array.join`). -/
def joinSep (sep : String) : List String → String
  | [] => ""
  | [x] => x
  | x :: y :: rest => x ++ sep ++ joinSep sep (y :: rest)

/-- The outcome of `JSON.parse` on a captured stdout: the stdout was empty
(falsy), unparseable, or parsed to a value. -/
inductive JsonOut (α : Type) where
  | empty
  | malformed
  | parsed (a : α)
deriving DecidableEq, Repr

/-- Parsed shape of `npm ls --json` output relevant to the peer check. -/
structure PeerLsData where
  problems : Option (List String)
deriving DecidableEq, Repr

/-- The exec result consumed by the peer-dependency check. -/
structure PeerExecResult where
  stdout : JsonOut PeerLsData
  stderr : String
deriving DecidableEq, Repr

/-- The `dependencies` record of `npm ls --json --all` output: name, optional
`version` field, children, then the remaining sibling entries (an absent
`dependencies` field and an empty record behave identically in the walk and
are both `nil`). -/
inductive NpmDeps where
  | nil
  | cons (name : String) (version : Option String) (children : NpmDeps)
      (rest : NpmDeps)
deriving DecidableEq, Repr

/-- The exec result consumed by the multiple-versions check. -/
structure LsExecResult where
  stdout : JsonOut NpmDeps
  stderr : String
deriving DecidableEq, Repr

/-- JS `Set.add`: append if absent. -/
def setAdd (s : List String) (v : String) : List String :=
  if v ∈ s then s else s ++ [v]

/-- The `Map<string, Set<string>>` insert used by `collectNpmVersions`. -/
def vmAdd (m : List (String × List String)) (name v : String) :
    List (String × List String) :=
  match m with
  | [] => [(name, [v])]
  | (k, vs) :: rest =>
    if k = name then (k, setAdd vs v) :: rest
    else (k, vs) :: vmAdd rest name v

/-- `collectNpmVersions`: walk the `npm ls` tree accumulating, per package
name, the set of distinct resolved versions in discovery order (a falsy
`version` field is skipped). -/
def collectNpmVersions : NpmDeps → List (String × List String) →
    List (String × List String)
  | .nil, m => m
  | .cons name version children rest, m =>
    let m1 := match version with
      | some v => if v.isEmpty then m else vmAdd m name v
      | none => m
    collectNpmVersions rest (collectNpmVersions children m1)

/-! ### Regex models for the peer-dependency check -/

/-- All indices at which `needle` occurs in `hay`. -/
def subIdxs (needle hay : List Char) : List Nat :=
  (List.range (hay.length + 1)).filter
    (fun i => needle.isPrefixOf (hay.drop i))

/-- The separator literal of the peer-problem regex. -/
def sepReq : List Char := [',', ' ', 'r', 'e', 'q', 'u', 'i', 'r', 'e', 'd',
  ' ', 'b', 'y', ' ']

/-- Greedy choice of the `, required by ` occurrence for group 2/3 of
`/peer dep missing: (.+)@(.+), required by (.+)/`: the last occurrence
leaving at least one character on each side. -/
def lastViableSep (mid : List Char) : Option Nat :=
  ((subIdxs sepReq mid).filter
    (fun b => 1 ≤ b && b + sepReq.length < mid.length)).getLast?

/-- Greedy choice of the `@` for group 1: the last `@` preceded by at least
one character and followed by a viable separator. -/
def lastViableAt (rest : List Char) : Option Nat :=
  ((subIdxs ['@'] rest).filter
    (fun a => 1 ≤ a && (lastViableSep (rest.drop (a + 1))).isSome)).getLast?

/-- The match prelude literal `peer dep missing: `. -/
def peerMissingLit : List Char := ['p', 'e', 'e', 'r', ' ', 'd', 'e', 'p',
  ' ', 'm', 'i', 's', 's', 'i', 'n', 'g', ':', ' ']

/-- Model of `problem.match(/peer dep missing: (.+)@(.+), required by (.+)/)`:
leftmost match start, greedy groups (the `.`-excludes-newline restriction is
not modelled; the problem strings this is applied to are single-line). -/
def matchPeerProblem (s : String) : Option (String × String × String) :=
  let cs := s.data
  let starts := subIdxs peerMissingLit cs
  match starts.find?
      (fun p => (lastViableAt (cs.drop (p + peerMissingLit.length))).isSome) with
  | none => none
  | some p =>
    let rest := cs.drop (p + peerMissingLit.length)
    match lastViableAt rest with
    | none => none
    | some a =>
      let mid := rest.drop (a + 1)
      match lastViableSep mid with
      | none => none
      | some b =>
        some (String.mk (rest.take a), String.mk (mid.take b),
          String.mk (mid.drop (b + sepReq.length)))

/-- Lowercase a character list. -/
def lowerCL (cs : List Char) : List Char := cs.map Char.toLower

/-- Start index of the match of `/WARN.*peer.*dep.*/i` within one line:
the first (case-insensitive) `WARN` followed somewhere later by `peer` and
then `dep`. -/
def warnMatchIdx (line : List Char) : Option Nat :=
  let low := lowerCL line
  (subIdxs ['w', 'a', 'r', 'n'] low).find?
    (fun i => (subIdxs ['p', 'e', 'e', 'r'] low).any
      (fun j => i + 4 ≤ j && (subIdxs ['d', 'e', 'p'] low).any
        (fun k => j + 4 ≤ k)))

/-- Model of `stderr.match(/WARN.*peer.*dep.*/gi)`: one match per line that
contains `WARN` then `peer` then `dep` (case-insensitively), the match
running from the `WARN` to the end of the line. -/
def matchWarnPeerDeps (stderr : String) : List String :=
  (splitOnCharCL '\n' stderr.data).filterMap
    (fun line => (warnMatchIdx line).map (fun i => String.mk (line.drop i)))

/-! ### The five checks -/

/-- Emission loop over `data.problems` in `detectPeerDependencyIssues`. -/
def emitPeerProblems (g : IdGen) :
    List String → Nat → List ConflictIssue × Nat
  | [], c => ([], c)
  | problem :: rest, c =>
    match matchPeerProblem problem with
    | some (p1, p2, p3) =>
      let issue : ConflictIssue :=
        { id := g c
          type := .peer_dependency
          severity := .warning
          package := p1
          message := problem
          details := { peerDependency := some ⟨p3, "", p1, p2, none⟩ }
          affectedPaths := [p3]
          suggestedAction := "安装 " ++ p1 ++ "@" ++ p2 ++ " 或检查版本兼容性" }
      let tail := emitPeerProblems g rest (c + 1)
      (issue :: tail.1, tail.2)
    | none => emitPeerProblems g rest c

/-- Emission loop over the stderr `WARN` matches in
`detectPeerDependencyIssues`. -/
def emitPeerWarnings (g : IdGen) :
    List String → Nat → List ConflictIssue × Nat
  | [], c => ([], c)
  | w :: rest, c =>
    let issue : ConflictIssue :=
      { id := g c
        type := .peer_dependency
        severity := .warning
        package := "unknown"
        message := w
        details := {}
        affectedPaths := []
        suggestedAction := "检查 peerDependencies 配置" }
    let tail := emitPeerWarnings g rest (c + 1)
    (issue :: tail.1, tail.2)

/-- `detectPeerDependencyIssues`: parse `npm ls --json` problems (npm only)
and stderr peer warnings into `peer_dependency` issues.  Unknown package
managers return no issues before running anything. -/
def detectPeerDependencyIssues (g : IdGen) (c : Nat) (pm : String)
    (res : PeerExecResult) : List ConflictIssue × Nat :=
  if pm ≠ "npm" ∧ pm ≠ "pnpm" ∧ pm ≠ "yarn" then ([], c)
  else
    let prob :=
      if pm = "npm" then
        match res.stdout with
        | .parsed data =>
          match data.problems with
          | some probs => emitPeerProblems g probs c
          | none => ([], c)
        | _ => ([], c)
      else ([], c)
    let warn := emitPeerWarnings g (matchWarnPeerDeps res.stderr) prob.2
    (prob.1 ++ warn.1, warn.2)

/-- Emission loop of `detectMultipleVersions` over the version map. -/
def emitMultiIssues (g : IdGen) :
    List (String × List String) → Nat → List ConflictIssue × Nat
  | [], c => ([], c)
  | (name, versions) :: rest, c =>
    if versions.length > 1 then
      let issue : ConflictIssue :=
        { id := g c
          type := .multiple_versions
          severity := if versions.length > 2 then .warning else .info
          package := name
          message := "包 " ++ name ++ " 存在 " ++ toString versions.length ++
            " 个版本: " ++ joinSep ", " versions
          details := { multipleVersions := some (versions.map fun v => ⟨v, []⟩) }
          affectedPaths := []
          suggestedAction := "考虑统一 " ++ name ++
            " 版本，使用 overrides/resolutions 或升级依赖" }
      let tail := emitMultiIssues g rest (c + 1)
      (issue :: tail.1, tail.2)
    else emitMultiIssues g rest c

/-- `detectMultipleVersions`: collect the per-package version sets from the
parsed `npm ls --json --all` output (npm only; a parse failure leaves the map
empty) and emit one issue per package with more than one distinct version. -/
def detectMultipleVersions (g : IdGen) (c : Nat) (pm : String)
    (res : LsExecResult) : List ConflictIssue × Nat :=
  if pm ≠ "npm" ∧ pm ≠ "pnpm" ∧ pm ≠ "yarn" then ([], c)
  else
    let versionMap :=
      if pm = "npm" then
        match res.stdout with
        | .parsed deps => collectNpmVersions deps []
        | _ => []
      else []
    emitMultiIssues g versionMap c

/-- JS object spread `{...a, ...b}` over duplicate-free string records. -/
def spread2 (a b : List (String × String)) : List (String × String) :=
  (a.map fun kv =>
    match List.lookup kv.1 b with
    | some v => (kv.1, v)
    | none => kv) ++
    b.filter (fun kv => (List.lookup kv.1 a).isNone)

/-- Per-package grouping: requirement string to the workspace names
declaring it, in insertion order. -/
abbrev WsGroups := List (String × List String)

/-- Inner insert of `detectWorkspaceMismatch`'s nested map. -/
def wsGroupsAdd (gs : WsGroups) (ver wsName : String) : WsGroups :=
  match gs with
  | [] => [(ver, [wsName])]
  | (v, ns) :: rest =>
    if v = ver then (v, ns ++ [wsName]) :: rest
    else (v, ns) :: wsGroupsAdd rest ver wsName

/-- Outer insert of `detectWorkspaceMismatch`'s nested map. -/
def depVersionsAdd (m : List (String × WsGroups)) (name ver wsName : String) :
    List (String × WsGroups) :=
  match m with
  | [] => [(name, [(ver, [wsName])])]
  | (k, gs) :: rest =>
    if k = name then (k, wsGroupsAdd gs ver wsName) :: rest
    else (k, gs) :: depVersionsAdd rest name ver wsName

/-- The `depVersions` map built by `detectWorkspaceMismatch`: for every
workspace member, every entry of `{...dependencies, ...devDependencies}` is
recorded under its package name, grouped by the textual requirement
string. -/
def buildDepVersions (workspaces : List WorkspaceInfo) :
    List (String × WsGroups) :=
  workspaces.foldl
    (fun m ws =>
      (spread2 ws.packageJson.dependencies ws.packageJson.devDependencies).foldl
        (fun m2 kv => depVersionsAdd m2 kv.1 kv.2 ws.name) m)
    []

/-- Emission loop of `detectWorkspaceMismatch` (the dead local `details`
array of the source has no observable effect and is omitted). -/
def emitWsIssues (g : IdGen) :
    List (String × WsGroups) → Nat → List ConflictIssue × Nat
  | [], c => ([], c)
  | (pkgName, groups) :: rest, c =>
    if groups.length > 1 then
      let issue : ConflictIssue :=
        { id := g c
          type := .workspace_mismatch
          severity := .warning
          package := pkgName
          message := "包 " ++ pkgName ++ " 在不同 workspace 中使用了不同版本"
          details := { workspaceMismatch := some (groups.map fun gp =>
            ⟨joinSep ", " gp.2, gp.1, [gp.1]⟩) }
          affectedPaths := (groups.map (·.2)).flatten
          suggestedAction := "统一 " ++ pkgName ++ " 在所有 workspace 中的版本" }
      let tail := emitWsIssues g rest (c + 1)
      (issue :: tail.1, tail.2)
    else emitWsIssues g rest c

/-- `detectWorkspaceMismatch`. -/
def detectWorkspaceMismatch (g : IdGen) (c : Nat)
    (workspaces : List WorkspaceInfo) : List ConflictIssue × Nat :=
  emitWsIssues g (buildDepVersions workspaces) c

/-- Emission loop of `detectOverrideRisks`: the package name is the last
`>`-segment of the override key (falling back to the whole key when that
segment is empty, as `pop() || pkg` does). -/
def emitOverrideIssues (g : IdGen) :
    List (String × String) → Nat → List ConflictIssue × Nat
  | [], c => ([], c)
  | (pkg, forcedVersion) :: rest, c =>
    let lastSeg := String.mk ((splitOnCharCL '>' pkg.data).getLastD [])
    let pkgName := if lastSeg.isEmpty then pkg else lastSeg
    let issue : ConflictIssue :=
      { id := g c
        type := .override_risk
        severity := .info
        package := pkgName
        message := "包 " ++ pkgName ++ " 被强制覆盖为版本 " ++ forcedVersion
        details := { overrideRisk := some ⟨pkgName, forcedVersion, [], true⟩ }
        affectedPaths := [pkg]
        suggestedAction := "定期检查 " ++ pkgName ++ " 的 override 是否仍然需要" }
    let tail := emitOverrideIssues g rest (c + 1)
    (issue :: tail.1, tail.2)

/-- `detectOverrideRisks`. -/
def detectOverrideRisks (g : IdGen) (c : Nat)
    (overrides : List (String × String)) (_packageJson : PackageJson) :
    List ConflictIssue × Nat :=
  emitOverrideIssues g overrides c

/-- `detectEngineMismatch`: when `engines.node` is declared (and truthy), an
`error` issue is emitted exactly when the full semver `satisfiesVersion`
rejects the current runtime version against the declared range. -/
def detectEngineMismatch (g : IdGen) (c : Nat) (packageJson : PackageJson)
    (currentNode : String) : List ConflictIssue × Nat :=
  match packageJson.engines.bind EnginesField.node with
  | none => ([], c)
  | some required =>
    if required.isEmpty then ([], c)
    else if satisfiesVersion currentNode required then ([], c)
    else
      ([{ id := g c
          type := .engine_mismatch
          severity := .error
          package := "node"
          message := "当前 Node.js 版本 " ++ currentNode ++ " 不满足要求 " ++
            required
          details := { engineMismatch := some ⟨"node", required, currentNode,
            "node"⟩ }
          affectedPaths := []
          suggestedAction := "升级 Node.js 到满足 " ++ required ++ " 的版本" }],
        c + 1)

/-! ### The `detectConflicts` pipeline -/

/-- The `severity` input filter of `detect_conflicts`. -/
inductive SevFilter where
  | all
  | error
  | warning
deriving DecidableEq, Repr

/-- The tool input (after zod defaults). -/
structure DetectInput where
  checkTypes : List ConflictType
  severity : SevFilter
deriving DecidableEq, Repr

/-- Outputs of the I/O collaborators consumed by one classification pass,
fixed for the pass. -/
structure CollabFacts where
  packageJson : PackageJson
  pm : String
  workspacePackages : List WorkspaceInfo
  peerLs : PeerExecResult
  fullLs : LsExecResult
  currentNode : String
deriving DecidableEq, Repr

/-- The summary block of the tool output. -/
structure Summary where
  total : Nat
  errors : Nat
  warnings : Nat
  infos : Nat
  byType : List (ConflictType × Nat)
deriving DecidableEq, Repr

/-- The tool output. -/
structure DetectOutput where
  hasIssues : Bool
  summary : Summary
  issues : List ConflictIssue
  analysisTimestamp : String
deriving DecidableEq, Repr

/-- Insertion-ordered counting record for `summary.byType`. -/
def byTypeAdd (m : List (ConflictType × Nat)) (t : ConflictType) :
    List (ConflictType × Nat) :=
  match m with
  | [] => [(t, 1)]
  | (k, n) :: rest =>
    if k = t then (k, n + 1) :: rest else (k, n) :: byTypeAdd rest t

/-- `byType` statistics over a list of issues. -/
def byTypeCount (issues : List ConflictIssue) : List (ConflictType × Nat) :=
  issues.foldl (fun acc i => byTypeAdd acc i.type) []

/-- The issue-collection phase of `detectConflicts`: run the configured
checks in source order (peer, multiple versions, workspace, overrides,
engines), concatenating their issues and threading the id counter. -/
def collectIssues (g : IdGen) (c : Nat) (input : DetectInput)
    (facts : CollabFacts) : List ConflictIssue × Nat :=
  let pr :=
    if input.checkTypes.contains .peer_dependency then
      detectPeerDependencyIssues g c facts.pm facts.peerLs
    else ([], c)
  let mu :=
    if input.checkTypes.contains .multiple_versions then
      detectMultipleVersions g pr.2 facts.pm facts.fullLs
    else ([], pr.2)
  let ws :=
    if input.checkTypes.contains .workspace_mismatch &&
        facts.workspacePackages.length > 0 then
      detectWorkspaceMismatch g mu.2 facts.workspacePackages
    else ([], mu.2)
  let ov :=
    if input.checkTypes.contains .override_risk then
      detectOverrideRisks g ws.2 (getOverrides facts.packageJson facts.pm)
        facts.packageJson
    else ([], ws.2)
  let en :=
    if input.checkTypes.contains .engine_mismatch then
      detectEngineMismatch g ov.2 facts.packageJson facts.currentNode
    else ([], ov.2)
  (pr.1 ++ mu.1 ++ ws.1 ++ ov.1 ++ en.1, en.2)

/-- `detectConflicts`: run the configured checks in source order, filter by
severity, and compute the summary over the filtered list. -/
def detectConflicts (g : IdGen) (c : Nat) (input : DetectInput)
    (facts : CollabFacts) (now : String) : DetectOutput × Nat :=
  let col := collectIssues g c input facts
  let issues := col.1
  let filteredIssues :=
    match input.severity with
    | .error => issues.filter (fun i => i.severity == .error)
    | .warning => issues.filter (fun i => !(i.severity == .info))
    | .all => issues
  ({ hasIssues := !filteredIssues.isEmpty
     summary :=
       { total := filteredIssues.length
         errors := (filteredIssues.filter (fun i => i.severity == .error)).length
         warnings :=
           (filteredIssues.filter (fun i => i.severity == .warning)).length
         infos := (filteredIssues.filter (fun i => i.severity == .info)).length
         byType := byTypeCount filteredIssues }
     issues := filteredIssues
     analysisTimestamp := now }, col.2)

/-- Erase the generated id of an issue (value comparison modulo ids). -/
def stripId (i : ConflictIssue) : ConflictIssue := { i with id := "" }

/-- The severity filter as the specification words it: `error` keeps exactly
the `error`-severity issues, `warning` keeps exactly the issues whose
severity is not `info`, `all` keeps everything. -/
def sevKeepSpec (sf : SevFilter) (i : ConflictIssue) : Bool :=
  match sf with
  | .error => i.severity == .error
  | .warning => !(i.severity == .info)
  | .all => true

/-- The distinct resolved versions recorded for a package by the
multiple-versions walk. -/
def distinctVersionsOf (deps : NpmDeps) (p : String) : List String :=
  (List.lookup p (collectNpmVersions deps [])).getD []

/-! ## Claim C6: the workspace_mismatch check -/

/-- The `workspace_mismatch` record (modulo the generated id) emitted for
package `p` grouped as `gs`; mirrors the record built by `emitWsIssues`. -/
def wsIssueVal (p : String) (gs : WsGroups) : ConflictIssue :=
  { id := ""
    type := .workspace_mismatch
    severity := .warning
    package := p
    message := "包 " ++ p ++ " 在不同 workspace 中使用了不同版本"
    details := { workspaceMismatch := some (gs.map fun gp =>
      ⟨joinSep ", " gp.2, gp.1, [gp.1]⟩) }
    affectedPaths := (gs.map (·.2)).flatten
    suggestedAction := "统一 " ++ p ++ " 在所有 workspace 中的版本" }

/-- A entry `(k, r)` declared by member `n` is recorded in the nested map:
the group of requirement `r` under package `k` contains `n`. -/
def InG (m : List (String × WsGroups)) (k r n : String) : Prop :=
  ∃ gs ns, List.lookup k m = some gs ∧ List.lookup r gs = some ns ∧ n ∈ ns

/-- One member's entry fold used by `buildDepVersions`. -/
def entryFold (n : String) (m : List (String × WsGroups))
    (entries : List (String × String)) : List (String × WsGroups) :=
  entries.foldl (fun m2 kv => depVersionsAdd m2 kv.1 kv.2 n) m

/-- The member-declared requirement record (`{...dependencies,
...devDependencies}`) of a workspace member. -/
def allDepsOf (ws : WorkspaceInfo) : List (String × String) :=
  spread2 ws.packageJson.dependencies ws.packageJson.devDependencies

/-- Workspace member fixtures for the C6 witness. -/
def wsA : WorkspaceInfo :=
  { name := "A", path := "/r/packages/a", relativePath := "packages/a"
    version := "1.0.0"
    packageJson := { name := "A", dependencies := [("lodash", "^4.0.0")] } }

/-- Second fixture. -/
def wsB : WorkspaceInfo :=
  { name := "B", path := "/r/packages/b", relativePath := "packages/b"
    version := "1.0.0"
    packageJson := { name := "B", dependencies := [("lodash", "^3.0.0")] } }

/-- Fixture declaring `1.2.3`. -/
def wsC : WorkspaceInfo :=
  { name := "C", path := "/r/packages/c", relativePath := "packages/c"
    version := "1.0.0"
    packageJson := { name := "C", dependencies := [("lodash", "1.2.3")] } }

/-- Fixture declaring the semver-equivalent `=1.2.3`. -/
def wsD : WorkspaceInfo :=
  { name := "D", path := "/r/packages/d", relativePath := "packages/d"
    version := "1.0.0"
    packageJson := { name := "D", dependencies := [("lodash", "=1.2.3")] } }

/-- Collaborator facts with two override keys whose last `>`-segment names
the same package. -/
def overrideDupFacts : CollabFacts :=
  { packageJson := { overrides := some (.consNode "react"
      (.consLeaf "classnames" "2.0.0" .nil)
      (.consLeaf "classnames" "2.3.1" .nil)) }
    pm := "npm"
    workspacePackages := []
    peerLs := { stdout := .empty, stderr := "" }
    fullLs := { stdout := .empty, stderr := "" }
    currentNode := "18.0.0" }

/-- Collaborator facts with two stderr peer warnings. -/
def peerDupFacts : CollabFacts :=
  { packageJson := {}
    pm := "npm"
    workspacePackages := []
    peerLs := { stdout := .empty,
                stderr := "WARN bad peer dep A\nWARN bad peer dep B" }
    fullLs := { stdout := .empty, stderr := "" }
    currentNode := "18.0.0" }

/-! ## Claim C2: the engine comparator

`detect-environment.ts` implements the simplified node-version comparator
(`isNodeVersionSatisfied`); the engine_mismatch check of
`detect-conflicts.ts` (`detectEngineMismatch` above) instead calls the full
semver `satisfiesVersion`.
-/

/-- Leading digit run of a character list, as a number (`none` if the list
does not start with digits). -/
def leadDigits (cs : List Char) : Option Nat :=
  let ds := cs.takeWhile Char.isDigit
  if ds.isEmpty then none else some (digitsVal ds)

/-- JS `parseInt` on a string (radix 10): skip leading whitespace, optional
sign, then a leading digit run; `none` models `NaN`. -/
def jsParseInt (s : String) : Option Int :=
  match s.data.dropWhile isWS with
  | '-' :: rest => (leadDigits rest).map (fun n => -(n : Int))
  | '+' :: rest => (leadDigits rest).map (fun n => (n : Int))
  | other => (leadDigits other).map (fun n => (n : Int))

/-- The regex `/^>=?\s*(\d+)/` of `isNodeVersionSatisfied`: a leading `>`
with optional `=`, optional whitespace, then a captured digit run. -/
def matchGeMajor (required : String) : Option Nat :=
  match required.data with
  | '>' :: rest =>
    let rest2 := match rest with
      | '=' :: r => r
      | r => r
    leadDigits (rest2.dropWhile isWS)
  | _ => none

/-- `isNodeVersionSatisfied` from `detect-environment.ts`: only `>=`/`>`
ranges with a leading numeric major are compared (via `parseInt` of the
first dot-segment of the current version; `NaN` comparisons are false); any
other range syntax is treated as satisfied. -/
def isNodeVersionSatisfied (current required : String) : Bool :=
  match matchGeMajor required with
  | some requiredMajor =>
    match jsParseInt (String.mk (current.data.takeWhile (· ≠ '.'))) with
    | some currentMajor => decide (currentMajor ≥ (requiredMajor : Int))
    | none => false
  | none => true

/-- The `engine_mismatch` record (modulo the generated id) emitted by
`detectEngineMismatch`. -/
def engineIssueVal (required current : String) : ConflictIssue :=
  { id := ""
    type := .engine_mismatch
    severity := .error
    package := "node"
    message := "当前 Node.js 版本 " ++ current ++ " 不满足要求 " ++ required
    details := { engineMismatch := some ⟨"node", required, current, "node"⟩ }
    affectedPaths := []
    suggestedAction := "升级 Node.js 到满足 " ++ required ++ " 的版本" }

/-- A `package.json` declaring `engines.node = "^18.0.0"`. -/
def pjCaret18 : PackageJson := { engines := some { node := some "^18.0.0" } }

/-! ## Claim C5: the solution generator and ranker (`apply-fix.ts`) -/

/-- Risk levels. -/
inductive RiskLevel where
  | low
  | medium
  | high
deriving DecidableEq, Repr

/-- Effort levels. -/
inductive EffortLevel where
  | trivial
  | minor
  | moderate
  | major
deriving DecidableEq, Repr

/-- One proposed atomic change (the source's `to` field is `toVer` here:
`to` is a reserved token in Lean). -/
structure SolutionStep where
  action : String
  target : String
  toVer : Option String := none
  file : String := ""
  field : Option String := none
  command : Option String := none
  manual : Bool
deriving DecidableEq, Repr

/-- The `risk` block of a solution. -/
structure RiskInfo where
  level : RiskLevel
  factors : List String
  mitigations : List String
deriving DecidableEq, Repr

/-- The `compatibility` block of a solution. -/
structure CompatInfo where
  breakingChanges : Bool
  affectedPackages : List String
  testingRequired : List String
deriving DecidableEq, Repr

/-- The `recommendation` block of a solution. -/
structure Recommendation where
  score : Nat
  reasons : List String
deriving DecidableEq, Repr

/-- A `SolutionCandidate`. -/
structure Solution where
  id : String
  forIssue : String
  title : String
  description : String
  steps : List SolutionStep
  risk : RiskInfo
  compatibility : CompatInfo
  recommendation : Recommendation
  estimatedEffort : EffortLevel
deriving DecidableEq, Repr

/-- `getOverrideField` from `apply-fix.ts`. -/
def getOverrideField (pm : String) : String :=
  if pm = "yarn" then "resolutions" else "overrides"

/-- `getLockFileName` from `apply-fix.ts`. -/
def getLockFileName (pm : String) : String :=
  if pm = "npm" then "package-lock.json"
  else if pm = "pnpm" then "pnpm-lock.yaml"
  else if pm = "yarn" then "yarn.lock"
  else "package-lock.json"

/-- `getInstallCommand` from `apply-fix.ts`. -/
def getInstallCommand (pm : String) : String := pm ++ " install"

/-- First digit run anywhere in a string (the JS `match(/\d+/)`). -/
def firstNumberOf (s : String) : Option Nat :=
  leadDigits (s.data.dropWhile (fun ch => !ch.isDigit))

/-- `isMajorUpgrade` from `apply-fix.ts`: compares the first numeric runs of
the two version strings; an absent `from` reports no breaking change. -/
def isMajorUpgrade (fromV : Option String) (toV : String) : Bool :=
  match fromV with
  | none => false
  | some f =>
    match firstNumberOf f, firstNumberOf toV with
    | some a, some b => decide (b > a)
    | _, _ => false

/-- JS `a || b` over optional strings (empty string is falsy). -/
def jsOr (a b : Option String) : Option String :=
  match a with
  | some v => if v.isEmpty then b else some v
  | none => b

/-- JS `a || d` with a string default. -/
def jsOrStr (a : Option String) (d : String) : String :=
  match a with
  | some v => if v.isEmpty then d else v
  | none => d

/-- `generateUpgradeSteps` from `apply-fix.ts`. -/
def generateUpgradeSteps (packageName version : String)
    (isDirectDep isDev : Bool) (pm : String) : List SolutionStep :=
  if isDirectDep then
    let command :=
      if pm = "npm" then
        "npm install " ++ packageName ++ "@" ++ version ++ " " ++
          (if isDev then "--save-dev" else "--save")
      else if pm = "pnpm" then
        "pnpm add " ++ packageName ++ "@" ++ version ++ " " ++
          (if isDev then "-D" else "")
      else if pm = "yarn" then
        "yarn add " ++ packageName ++ "@" ++ version ++ " " ++
          (if isDev then "-D" else "")
      else "npm install " ++ packageName ++ "@" ++ version
    [{ action := "upgrade", target := packageName, toVer := some version
       file := "package.json"
       field := some (if isDev then "devDependencies" else "dependencies")
       command := some command, manual := false }]
  else
    [{ action := "override", target := packageName, toVer := some version
       file := "package.json", field := some (getOverrideField pm)
       manual := true }]

/-- `constraints` input of the solution generator. -/
structure Constraints where
  allowMajorUpgrade : Option Bool := none
deriving DecidableEq, Repr

/-- `findWorkspacesUsingPackage` from `apply-fix.ts`. -/
def findWorkspacesUsingPackage (workspaces : List WorkspaceInfo)
    (packageName : String) : List WorkspaceInfo :=
  workspaces.filter (fun ws =>
    (List.lookup packageName (allDepsOf ws)).isSome)

/-- `path.join(relativePath, "package.json")` for the simple relative paths
produced by workspace discovery. -/
def joinPkgJson (relativePath : String) : String :=
  if relativePath.isEmpty then "package.json"
  else relativePath ++ "/package.json"

/-- `generatePackageSolutions` from `apply-fix.ts`: up to four candidates —
upgrade to latest (score 90 non-breaking / 60 breaking, only when latest is
known and differs, and breaking upgrades are gated), upgrade to an explicit
target (75), force-pin override for transitive packages (65), and
workspace unification (85).  The registry lookup result is supplied as
`latestVersion`. -/
def generatePackageSolutions (g : IdGen) (c : Nat) (packageName : String)
    (targetVersion : Option String) (packageJson : PackageJson)
    (workspaces : List WorkspaceInfo) (pm strategy : String)
    (constraints : Constraints) (latestVersion : Option String) :
    List Solution × Nat :=
  let currentVersion := jsOr (List.lookup packageName packageJson.dependencies)
    (List.lookup packageName packageJson.devDependencies)
  let isDirectDep := currentVersion.isSome
  let isDev := (List.lookup packageName packageJson.devDependencies).isSome
  let s1 : List Solution × Nat :=
    match latestVersion with
    | some latest =>
      if !latest.isEmpty && currentVersion ≠ some latest then
        let isBreaking := isMajorUpgrade currentVersion latest
        if !isBreaking || constraints.allowMajorUpgrade.getD false ||
            strategy = "aggressive" then
          ([{ id := g c
              forIssue := packageName
              title := "升级 " ++ packageName ++ " 到最新版本"
              description := "将 " ++ packageName ++ " 从 " ++
                jsOrStr currentVersion "未安装" ++ " 升级到 " ++ latest
              steps := generateUpgradeSteps packageName latest isDirectDep
                isDev pm
              risk := ⟨if isBreaking then .high else .low,
                if isBreaking then ["主版本升级可能包含破坏性变更"] else [],
                ["运行测试套件", "检查 changelog"]⟩
              compatibility := ⟨isBreaking, [packageName],
                ["unit tests", "integration tests"]⟩
              recommendation := ⟨if isBreaking then 60 else 90,
                if isBreaking then ["最新版本", "但包含主版本升级"]
                else ["最新版本", "非破坏性升级"]⟩
              estimatedEffort := if isBreaking then .moderate else .minor }],
            c + 1)
        else ([], c)
      else ([], c)
    | none => ([], c)
  let s2 : List Solution × Nat :=
    match targetVersion with
    | some tv =>
      if !tv.isEmpty && some tv ≠ latestVersion then
        let isBreaking := isMajorUpgrade currentVersion tv
        ([{ id := g s1.2
            forIssue := packageName
            title := "升级 " ++ packageName ++ " 到 " ++ tv
            description := "将 " ++ packageName ++ " 从 " ++
              jsOrStr currentVersion "未安装" ++ " 升级到指定版本 " ++ tv
            steps := generateUpgradeSteps packageName tv isDirectDep isDev pm
            risk := ⟨if isBreaking then .medium else .low,
              if isBreaking then ["主版本变更"] else [], ["运行测试"]⟩
            compatibility := ⟨isBreaking, [packageName], ["unit tests"]⟩
            recommendation := ⟨75, ["指定版本", "可控升级"]⟩
            estimatedEffort := .minor }],
          s1.2 + 1)
      else ([], s1.2)
    | none => ([], s1.2)
  let s3 : List Solution × Nat :=
    match latestVersion with
    | some latest =>
      if !latest.isEmpty && !isDirectDep then
        let overrideField := getOverrideField pm
        ([{ id := g s2.2
            forIssue := packageName
            title := "使用 " ++ overrideField ++ " 强制 " ++ packageName ++
              " 版本"
            description := "在 package.json 中添加 " ++ overrideField ++
              " 配置，强制所有依赖使用统一版本"
            steps := [
              { action := "override", target := packageName
                toVer := some (jsOrStr targetVersion latest)
                file := "package.json", field := some overrideField
                command := none, manual := true },
              { action := "regenerate_lock", target := "lock file"
                file := getLockFileName pm
                command := some (getInstallCommand pm), manual := false }]
            risk := ⟨.medium,
              ["强制版本可能导致依赖不兼容", "需要长期维护 override 配置"],
              ["定期检查 override 是否仍然需要", "监控依赖更新"]⟩
            compatibility := ⟨false, [packageName], ["full regression"]⟩
            recommendation := ⟨65, ["可快速解决多版本问题", "但需要持续维护"]⟩
            estimatedEffort := .minor }],
          s2.2 + 1)
      else ([], s2.2)
    | none => ([], s2.2)
  let s4 : List Solution × Nat :=
    if workspaces.length > 0 then
      let affected := findWorkspacesUsingPackage workspaces packageName
      if affected.length > 1 then
        ([{ id := g s3.2
            forIssue := packageName
            title := "统一 " ++ packageName ++ " 在所有 workspace 中的版本"
            description := "将所有 workspace 中的 " ++ packageName ++
              " 统一为 " ++ jsOrStr targetVersion
                (jsOrStr latestVersion "最新版本")
            steps := affected.map (fun ws =>
              { action := "upgrade", target := packageName
                toVer := some (jsOrStr targetVersion
                  (jsOrStr latestVersion "latest"))
                file := joinPkgJson ws.relativePath, manual := true })
            risk := ⟨.low, [], ["逐个 workspace 测试"]⟩
            compatibility := ⟨false, affected.map (·.name),
              affected.map (fun ws => ws.name ++ " tests")⟩
            recommendation := ⟨85, ["统一版本管理", "减少依赖复杂度"]⟩
            estimatedEffort := if affected.length > 3 then .moderate
              else .minor }],
          s3.2 + 1)
      else ([], s3.2)
    else ([], s3.2)
  (s1.1 ++ s2.1 ++ s3.1 ++ s4.1, s4.2)

/-- One row of the comparison matrix. -/
structure MatrixEntry where
  solutionId : String
  title : String
  risk : Nat
  effort : Nat
  recommendation : Nat
deriving DecidableEq, Repr

/-- `riskToNumber` from `apply-fix.ts`. -/
def riskToNumber : RiskLevel → Nat
  | .low => 1
  | .medium => 2
  | .high => 3

/-- `effortToNumber` from `apply-fix.ts`. -/
def effortToNumber : EffortLevel → Nat
  | .trivial => 1
  | .minor => 2
  | .moderate => 3
  | .major => 4

/-- The comparison output. -/
structure Comparison where
  matrix : List MatrixEntry
  recommended : Option String
  reason : String
deriving DecidableEq, Repr

/-- Stable insertion into a descending-by-recommendation list (equal scores
keep their original relative order, as the stable JS `sort` does). -/
def insertDescByRec (e : MatrixEntry) : List MatrixEntry → List MatrixEntry
  | [] => [e]
  | x :: xs =>
    if x.recommendation < e.recommendation then e :: x :: xs
    else x :: insertDescByRec e xs

/-- Stable descending sort by recommendation score, modelling
`[...matrix].sort((a, b) => b.recommendation - a.recommendation)`. -/
def sortDescByRec (l : List MatrixEntry) : List MatrixEntry :=
  l.foldl (fun acc e => insertDescByRec e acc) []

/-- `generateComparison` from `apply-fix.ts`: build the matrix, sort it
descending by recommendation score, and recommend the top entry
(`sorted[0]?.solutionId || null`). -/
def generateComparison (solutions : List Solution) : Comparison :=
  let matrix := solutions.map (fun s =>
    ⟨s.id, s.title, riskToNumber s.risk.level, effortToNumber s.estimatedEffort,
      s.recommendation.score⟩)
  let sorted := sortDescByRec matrix
  let recommended : Option String :=
    match sorted.head? with
    | some e => if e.solutionId.isEmpty then none else some e.solutionId
    | none => none
  let reason :=
    match sorted.head? with
    | some e =>
      if e.solutionId.isEmpty then "无可用方案"
      else "方案 \"" ++ e.title ++ "\" 综合评分最高 (" ++
        toString e.recommendation ++ "/100)"
    | none => "无可用方案"
  ⟨matrix, recommended, reason⟩

/-- Sorted descending by recommendation score. -/
def DescRec (l : List MatrixEntry) : Prop :=
  List.Pairwise (fun a b => b.recommendation ≤ a.recommendation) l

theorem ordThen_eq_iff {a b : Ordering} :
    ordThen a b = .eq ↔ (a = .eq ∧ b = .eq) := by
  cases a <;> simp [ordThen]

theorem ordThen_lt_iff {a b : Ordering} :
    ordThen a b = .lt ↔ (a = .lt ∨ (a = .eq ∧ b = .lt)) := by
  cases a <;> simp [ordThen]

theorem IsCmp.self {α : Type} {f : α → α → Ordering} (h : IsCmp f) (a : α) :
    f a a = .eq := (h.eq_iff a a).mpr rfl

theorem natCmp_eq_iff (a b : Nat) : natCmp a b = .eq ↔ a = b := by
  unfold natCmp
  split
  · constructor
    · intro h; exact absurd h (by simp)
    · intro h; omega
  · split
    · constructor
      · intro h; exact absurd h (by simp)
      · intro h; omega
    · constructor
      · intro _; omega
      · intro _; rfl

theorem natCmp_lt_iff (a b : Nat) : natCmp a b = .lt ↔ a < b := by
  unfold natCmp
  split
  · constructor
    · intro _; assumption
    · intro _; rfl
  · split
    · constructor
      · intro h; exact absurd h (by simp)
      · intro h; omega
    · constructor
      · intro h; exact absurd h (by simp)
      · intro h; omega

theorem natCmp_isCmp : IsCmp natCmp := by
  refine ⟨natCmp_eq_iff, ?_⟩
  intro a b c hab hbc
  rw [natCmp_lt_iff] at *
  omega

theorem charCmp_isCmp : IsCmp charCmp := by
  constructor
  · intro a b
    unfold charCmp
    rw [natCmp_eq_iff]
    constructor
    · intro h; exact Char.ext (UInt32.toNat.inj h)
    · intro h; rw [h]
  · intro a b c hab hbc
    exact natCmp_isCmp.lt_trans hab hbc

theorem listCmp_isCmp {α : Type} {f : α → α → Ordering} (hf : IsCmp f) :
    IsCmp (listCmp f) := by
  constructor
  · intro a
    induction a with
    | nil => intro b; cases b <;> simp [listCmp]
    | cons x xs ih =>
      intro b
      cases b with
      | nil => simp [listCmp]
      | cons y ys =>
        simp only [listCmp, ordThen_eq_iff, hf.eq_iff, ih ys, List.cons.injEq]
  · intro a
    induction a with
    | nil =>
      intro b c hab hbc
      cases b with
      | nil => exact hbc
      | cons y ys =>
        cases c with
        | nil => simp [listCmp] at hbc
        | cons z zs => simp [listCmp]
    | cons x xs ih =>
      intro b c hab hbc
      cases b with
      | nil => simp [listCmp] at hab
      | cons y ys =>
        cases c with
        | nil => simp [listCmp] at hbc
        | cons z zs =>
          simp only [listCmp, ordThen_lt_iff] at hab hbc ⊢
          rcases hab with h1 | ⟨h1e, h1l⟩
          · rcases hbc with h2 | ⟨h2e, h2l⟩
            · exact Or.inl (hf.lt_trans h1 h2)
            · rw [hf.eq_iff] at h2e; subst h2e; exact Or.inl h1
          · rw [hf.eq_iff] at h1e; subst h1e
            rcases hbc with h2 | ⟨h2e, h2l⟩
            · exact Or.inl h2
            · rw [hf.eq_iff] at h2e; subst h2e
              exact Or.inr ⟨hf.self x, ih h1l h2l⟩

theorem strCmp_isCmp : IsCmp strCmp := by
  constructor
  · intro a b
    unfold strCmp
    rw [(listCmp_isCmp charCmp_isCmp).eq_iff]
    constructor
    · intro h
      cases a; cases b
      exact congrArg String.mk h
    · intro h; rw [h]
  · intro a b c hab hbc
    exact (listCmp_isCmp charCmp_isCmp).lt_trans hab hbc

theorem pidCmp_isCmp : IsCmp pidCmp := by
  constructor
  · intro a b
    cases a <;> cases b <;> simp [pidCmp, natCmp_eq_iff, strCmp_isCmp.eq_iff]
  · intro a b c hab hbc
    cases a <;> cases b <;> cases c <;> simp_all [pidCmp]
    · exact natCmp_isCmp.lt_trans hab hbc
    · exact strCmp_isCmp.lt_trans hab hbc

theorem preCmp_isCmp : IsCmp preCmp := by
  constructor
  · intro a b
    cases a <;> cases b <;>
      simp [preCmp, (listCmp_isCmp pidCmp_isCmp).eq_iff, listCmp]
    rw [ordThen_eq_iff, pidCmp_isCmp.eq_iff, (listCmp_isCmp pidCmp_isCmp).eq_iff]
  · intro a b c hab hbc
    cases a <;> cases b <;> cases c <;> simp_all [preCmp]
    exact (listCmp_isCmp pidCmp_isCmp).lt_trans hab hbc

theorem compareVers_isCmp : IsCmp compareVers := by
  constructor
  · intro a b
    cases a; cases b
    simp [compareVers, ordThen_eq_iff, natCmp_eq_iff, preCmp_isCmp.eq_iff,
      SemVer.mk.injEq, and_assoc]
  · intro a b c hab hbc
    unfold compareVers at *
    rw [ordThen_lt_iff] at hab hbc ⊢
    rcases hab with h1 | ⟨h1e, h1r⟩
    · rcases hbc with h2 | ⟨h2e, h2r⟩
      · exact Or.inl (natCmp_isCmp.lt_trans h1 h2)
      · rw [natCmp_eq_iff] at h2e; rw [h2e] at h1; exact Or.inl h1
    · rw [natCmp_eq_iff] at h1e
      rcases hbc with h2 | ⟨h2e, h2r⟩
      · rw [← h1e] at h2; exact Or.inl h2
      · rw [natCmp_eq_iff] at h2e
        refine Or.inr ⟨by rw [natCmp_eq_iff]; omega, ?_⟩
        rw [ordThen_lt_iff] at h1r h2r ⊢
        rcases h1r with g1 | ⟨g1e, g1r⟩
        · rcases h2r with g2 | ⟨g2e, g2r⟩
          · exact Or.inl (natCmp_isCmp.lt_trans g1 g2)
          · rw [natCmp_eq_iff] at g2e; rw [g2e] at g1; exact Or.inl g1
        · rw [natCmp_eq_iff] at g1e
          rcases h2r with g2 | ⟨g2e, g2r⟩
          · rw [← g1e] at g2; exact Or.inl g2
          · rw [natCmp_eq_iff] at g2e
            refine Or.inr ⟨by rw [natCmp_eq_iff]; omega, ?_⟩
            rw [ordThen_lt_iff] at g1r g2r ⊢
            rcases g1r with k1 | ⟨k1e, k1r⟩
            · rcases g2r with k2 | ⟨k2e, k2r⟩
              · exact Or.inl (natCmp_isCmp.lt_trans k1 k2)
              · rw [natCmp_eq_iff] at k2e; rw [k2e] at k1; exact Or.inl k1
            · rw [natCmp_eq_iff] at k1e
              rcases g2r with k2 | ⟨k2e, k2r⟩
              · rw [← k1e] at k2; exact Or.inl k2
              · rw [natCmp_eq_iff] at k2e
                refine Or.inr ⟨by rw [natCmp_eq_iff]; omega, ?_⟩
                exact preCmp_isCmp.lt_trans k1r k2r

theorem compareVers_self (a : SemVer) : compareVers a a = .eq :=
  compareVers_isCmp.self a

theorem foldInv_step {r : SemRange} {seen : List String}
    {acc : Option (String × SemVer)} (h : FoldInv r seen acc) (v : String) :
    FoldInv r (seen ++ [v]) (maxSatStep r acc v) := by
  unfold maxSatStep
  cases hp : parseVersion v with
  | none =>
    cases acc with
    | none =>
      intro u hu su hpu
      rcases List.mem_append.mp hu with h1 | h1
      · exact h u h1 su hpu
      · simp only [List.mem_singleton] at h1
        subst h1; rw [hp] at hpu; cases hpu
    | some p =>
      obtain ⟨m, msv⟩ := p
      obtain ⟨hm, hpm, htm, hmax⟩ := h
      refine ⟨List.mem_append.mpr (Or.inl hm), hpm, htm, ?_⟩
      intro u hu su hpu htu
      rcases List.mem_append.mp hu with h1 | h1
      · exact hmax u h1 su hpu htu
      · simp only [List.mem_singleton] at h1
        subst h1; rw [hp] at hpu; cases hpu
  | some sv =>
    by_cases ht : rangeTest r sv = true
    · simp only [ht, if_true]
      cases acc with
      | none =>
        refine ⟨List.mem_append.mpr (Or.inr (by simp)), hp, ht, ?_⟩
        intro u hu su hpu htu
        rcases List.mem_append.mp hu with h1 | h1
        · exact absurd htu (by rw [h u h1 su hpu]; simp)
        · simp only [List.mem_singleton] at h1
          subst h1; rw [hp] at hpu
          injection hpu with hsu; subst hsu
          rw [compareVers_self]; simp
      | some p =>
        obtain ⟨m, msv⟩ := p
        obtain ⟨hm, hpm, htm, hmax⟩ := h
        by_cases hlt : compareVers msv sv = .lt
        · simp only [hlt, if_true]
          refine ⟨List.mem_append.mpr (Or.inr (by simp)), hp, ht, ?_⟩
          intro u hu su hpu htu
          rcases List.mem_append.mp hu with h1 | h1
          · intro hcon
            exact hmax u h1 su hpu htu (compareVers_isCmp.lt_trans hlt hcon)
          · simp only [List.mem_singleton] at h1
            subst h1; rw [hp] at hpu
            injection hpu with hsu; subst hsu
            rw [compareVers_self]; simp
        · simp only [hlt, if_false]
          refine ⟨List.mem_append.mpr (Or.inl hm), hpm, htm, ?_⟩
          intro u hu su hpu htu
          rcases List.mem_append.mp hu with h1 | h1
          · exact hmax u h1 su hpu htu
          · simp only [List.mem_singleton] at h1
            subst h1; rw [hp] at hpu
            injection hpu with hsu; subst hsu
            exact hlt
    · simp only [ht, if_false]
      cases acc with
      | none =>
        intro u hu su hpu
        rcases List.mem_append.mp hu with h1 | h1
        · exact h u h1 su hpu
        · simp only [List.mem_singleton] at h1
          subst h1; rw [hp] at hpu
          injection hpu with hsu; subst hsu
          simpa using ht
      | some p =>
        obtain ⟨m, msv⟩ := p
        obtain ⟨hm, hpm, htm, hmax⟩ := h
        refine ⟨List.mem_append.mpr (Or.inl hm), hpm, htm, ?_⟩
        intro u hu su hpu htu
        rcases List.mem_append.mp hu with h1 | h1
        · exact hmax u h1 su hpu htu
        · simp only [List.mem_singleton] at h1
          subst h1; rw [hp] at hpu
          injection hpu with hsu; subst hsu
          exact absurd htu (by simpa using ht)

theorem foldInv_foldl {r : SemRange} (l : List String) :
    ∀ (seen : List String) (acc : Option (String × SemVer)),
      FoldInv r seen acc → FoldInv r (seen ++ l) (l.foldl (maxSatStep r) acc) := by
  induction l with
  | nil => intro seen acc h; simpa using h
  | cons x xs ih =>
    intro seen acc h
    have h1 := foldInv_step h x
    have h2 := ih (seen ++ [x]) (maxSatStep r acc x) h1
    simpa using h2

theorem maxSat_fold_spec (r : SemRange) (versions : List String) :
    FoldInv r versions (versions.foldl (maxSatStep r) none) := by
  have h := foldInv_foldl (r := r) versions [] none (by intro v hv; cases hv)
  simpa using h

/-! ## Claims C3, C7, C8: the Version Range Oracle -/

/-- Claim C3: no operation of the Version Range Oracle ever throws on
malformed input; in particular `getMaxSatisfying` (node-semver
`maxSatisfying`, which catches its own `Range` constructor) returns a value
— `ok` of a version or of `none` — for every version set and every range
string, including unparseable range strings. -/
theorem claim_C3_maxSatisfying_total (versions : List String) (range : String) :
    ∃ o : Option String, getMaxSatisfying versions range = Except.ok o := by
  unfold getMaxSatisfying maxSatisfyingLib rangeExc
  cases parseRange range with
  | none => exact ⟨none, rfl⟩
  | some r => exact ⟨_, rfl⟩

/-- Claim C7: `satisfiesVersion` always returns a boolean and fails closed —
whenever the range string is malformed (the modelled `Range` constructor
rejects it) the result is `false`, not an exception. -/
theorem claim_C7_satisfies_fails_closed (version range : String)
    (h : parseRange range = none) :
    satisfiesVersion version range = false := by
  unfold satisfiesVersion semverSatisfies
  rw [h]

/-- Witness for C7 at a concrete malformed range. -/
theorem claim_C7_witness :
    parseRange "not a range!" = none ∧
      satisfiesVersion "1.0.0" "not a range!" = false :=
  ⟨by decide, claim_C7_satisfies_fails_closed "1.0.0" "not a range!" (by decide)⟩

/-- Claim C8: for every well-formed range, `getMaxSatisfying` returns `none`
exactly when no version in the set satisfies the range, and any returned
version is a member, satisfies the range, and is maximal under standard
semver precedence among the satisfying versions; pre-release tags sort below
their release, and the two documented examples hold. -/
theorem claim_C8_maxSatisfying_spec (versions : List String) (range : String)
    (r : SemRange) (hr : parseRange range = some r) :
    (getMaxSatisfying versions range = Except.ok none ↔
      ∀ v ∈ versions, satisfiesVersion v range = false) ∧
    (∀ m, getMaxSatisfying versions range = Except.ok (some m) →
      m ∈ versions ∧ satisfiesVersion m range = true ∧
        ∀ v ∈ versions, satisfiesVersion v range = true →
          ∀ sv sm, parseVersion v = some sv → parseVersion m = some sm →
            compareVers sm sv ≠ .lt) ∧
    (∀ mj mn pt ids, ids ≠ [] →
      compareVers ⟨mj, mn, pt, ids⟩ ⟨mj, mn, pt, []⟩ = .lt) ∧
    getMaxSatisfying ["1.2.0", "1.3.0", "2.0.0"] "^1.2.0" =
      Except.ok (some "1.3.0") ∧
    getMaxSatisfying ["1.0.0"] "^2.0.0" = Except.ok none := by
  have hsat : ∀ v, satisfiesVersion v range =
      (match parseVersion v with
       | none => false
       | some sv => rangeTest r sv) := by
    intro v
    unfold satisfiesVersion semverSatisfies
    rw [hr]
  have hfold := maxSat_fold_spec r versions
  have hget : getMaxSatisfying versions range =
      Except.ok ((versions.foldl (maxSatStep r) none).map Prod.fst) := by
    unfold getMaxSatisfying maxSatisfyingLib rangeExc
    rw [hr]
  refine ⟨?_, ?_, ?_, by rfl, by rfl⟩
  · rw [hget]
    cases hacc : versions.foldl (maxSatStep r) none with
    | none =>
      rw [hacc] at hfold
      simp only [Option.map_none', true_iff]
      intro v hv
      rw [hsat v]
      cases hpv : parseVersion v with
      | none => rfl
      | some sv => exact hfold v hv sv hpv
    | some p =>
      obtain ⟨m, msv⟩ := p
      rw [hacc] at hfold
      obtain ⟨hm, hpm, htm, _⟩ := hfold
      simp only [Option.map_some']
      constructor
      · intro hcon; cases hcon
      · intro hall
        have hc := hall m hm
        rw [hsat m] at hc
        simp only [hpm] at hc
        rw [htm] at hc
        cases hc
  · intro m hmeq
    rw [hget] at hmeq
    cases hacc : versions.foldl (maxSatStep r) none with
    | none => rw [hacc] at hmeq; cases hmeq
    | some p =>
      obtain ⟨m', msv⟩ := p
      rw [hacc] at hmeq
      simp only [Option.map_some', Except.ok.injEq, Option.some.injEq] at hmeq
      subst hmeq
      rw [hacc] at hfold
      obtain ⟨hm, hpm, htm, hmax⟩ := hfold
      refine ⟨hm, by rw [hsat m', hpm]; exact htm, ?_⟩
      intro v hv hsv sv sm hpv hpm2
      rw [hpm] at hpm2
      injection hpm2 with he; subst he
      rw [hsat v, hpv] at hsv
      exact hmax v hv sv hpv hsv
  · intro mj mn pt ids hids
    cases ids with
    | nil => exact absurd rfl hids
    | cons i is =>
      have h1 : natCmp mj mj = .eq := (natCmp_eq_iff mj mj).mpr rfl
      have h2 : natCmp mn mn = .eq := (natCmp_eq_iff mn mn).mpr rfl
      have h3 : natCmp pt pt = .eq := (natCmp_eq_iff pt pt).mpr rfl
      simp [compareVers, h1, h2, h3, ordThen, preCmp]

/-- Witness for C8 at the documented concrete input. -/
theorem claim_C8_witness :
    "1.3.0" ∈ ["1.2.0", "1.3.0", "2.0.0"] ∧
      satisfiesVersion "1.3.0" "^1.2.0" = true := by
  have h := claim_C8_maxSatisfying_spec ["1.2.0", "1.3.0", "2.0.0"] "^1.2.0"
    [[⟨.ge, ⟨1, 2, 0, []⟩⟩, ⟨.lt, ⟨2, 0, 0, [.num 0]⟩⟩]] (by decide)
  have h2 := h.2.1 "1.3.0" (by rfl)
  exact ⟨h2.1, h2.2.1⟩

/-! ## Claim C10: severity filtering and summary -/

/-- Claim C10: the `severity` input filters the detected issues exactly as
specified (`error` keeps the errors, `warning` keeps everything that is not
`info`, `all` keeps all), and `hasIssues` and every summary count are
computed over the filtered list. -/
theorem claim_C10_severity_filter (g : IdGen) (c : Nat) (input : DetectInput)
    (facts : CollabFacts) (now : String) :
    (detectConflicts g c input facts now).1.issues =
      ((detectConflicts g c ⟨input.checkTypes, .all⟩ facts now).1.issues).filter
        (sevKeepSpec input.severity) ∧
    (detectConflicts g c input facts now).1.hasIssues =
      !((detectConflicts g c input facts now).1.issues).isEmpty ∧
    (detectConflicts g c input facts now).1.summary.total =
      ((detectConflicts g c input facts now).1.issues).length ∧
    (detectConflicts g c input facts now).1.summary.errors =
      (((detectConflicts g c input facts now).1.issues).filter
        (fun i => i.severity == .error)).length ∧
    (detectConflicts g c input facts now).1.summary.warnings =
      (((detectConflicts g c input facts now).1.issues).filter
        (fun i => i.severity == .warning)).length ∧
    (detectConflicts g c input facts now).1.summary.infos =
      (((detectConflicts g c input facts now).1.issues).filter
        (fun i => i.severity == .info)).length ∧
    (detectConflicts g c input facts now).1.summary.byType =
      byTypeCount ((detectConflicts g c input facts now).1.issues) := by
  obtain ⟨cts, sf⟩ := input
  cases sf with
  | all =>
    refine ⟨?_, rfl, rfl, rfl, rfl, rfl, rfl⟩
    exact (List.filter_true _).symm
  | error => exact ⟨rfl, rfl, rfl, rfl, rfl, rfl, rfl⟩
  | warning => exact ⟨rfl, rfl, rfl, rfl, rfl, rfl, rfl⟩

/-! ## Claim C9: classification is deterministic modulo generated ids -/

theorem emitPeerProblems_stripId (l : List String) :
    ∀ (g g' : IdGen) (c c' : Nat),
      ((emitPeerProblems g l c).1).map stripId =
        ((emitPeerProblems g' l c').1).map stripId := by
  induction l with
  | nil => intro g g' c c'; rfl
  | cons problem rest ih =>
    intro g g' c c'
    unfold emitPeerProblems
    cases matchPeerProblem problem with
    | none => exact ih g g' c c'
    | some t =>
      obtain ⟨p1, p2, p3⟩ := t
      simp only [List.map_cons, stripId]
      rw [ih g g' (c + 1) (c' + 1)]

theorem emitPeerWarnings_stripId (l : List String) :
    ∀ (g g' : IdGen) (c c' : Nat),
      ((emitPeerWarnings g l c).1).map stripId =
        ((emitPeerWarnings g' l c').1).map stripId := by
  induction l with
  | nil => intro g g' c c'; rfl
  | cons w rest ih =>
    intro g g' c c'
    unfold emitPeerWarnings
    simp only [List.map_cons, stripId]
    rw [ih g g' (c + 1) (c' + 1)]

theorem detectPeer_stripId (pm : String) (res : PeerExecResult)
    (g g' : IdGen) (c c' : Nat) :
    ((detectPeerDependencyIssues g c pm res).1).map stripId =
      ((detectPeerDependencyIssues g' c' pm res).1).map stripId := by
  obtain ⟨sout, serr⟩ := res
  unfold detectPeerDependencyIssues
  split
  · rfl
  · simp only [List.map_append]
    refine congrArg₂ _ ?_ (emitPeerWarnings_stripId _ g g' _ _)
    by_cases hpm : pm = "npm"
    · simp only [if_pos hpm]
      cases sout with
      | empty => rfl
      | malformed => rfl
      | parsed data =>
        obtain ⟨probs?⟩ := data
        cases probs? with
        | none => rfl
        | some probs => exact emitPeerProblems_stripId probs g g' c c'
    · simp only [if_neg hpm]

theorem emitMultiIssues_stripId (l : List (String × List String)) :
    ∀ (g g' : IdGen) (c c' : Nat),
      ((emitMultiIssues g l c).1).map stripId =
        ((emitMultiIssues g' l c').1).map stripId := by
  induction l with
  | nil => intro g g' c c'; rfl
  | cons e rest ih =>
    intro g g' c c'
    obtain ⟨name, versions⟩ := e
    unfold emitMultiIssues
    by_cases h : versions.length > 1
    · simp only [if_pos h, List.map_cons, stripId]
      rw [ih g g' (c + 1) (c' + 1)]
    · simp only [if_neg h]
      exact ih g g' c c'

theorem detectMulti_stripId (pm : String) (res : LsExecResult)
    (g g' : IdGen) (c c' : Nat) :
    ((detectMultipleVersions g c pm res).1).map stripId =
      ((detectMultipleVersions g' c' pm res).1).map stripId := by
  unfold detectMultipleVersions
  split
  · rfl
  · exact emitMultiIssues_stripId _ g g' c c'

theorem emitWsIssues_stripId (l : List (String × WsGroups)) :
    ∀ (g g' : IdGen) (c c' : Nat),
      ((emitWsIssues g l c).1).map stripId =
        ((emitWsIssues g' l c').1).map stripId := by
  induction l with
  | nil => intro g g' c c'; rfl
  | cons e rest ih =>
    intro g g' c c'
    obtain ⟨pkgName, groups⟩ := e
    unfold emitWsIssues
    by_cases h : groups.length > 1
    · simp only [if_pos h, List.map_cons, stripId]
      rw [ih g g' (c + 1) (c' + 1)]
    · simp only [if_neg h]
      exact ih g g' c c'

theorem emitOverrideIssues_stripId (l : List (String × String)) :
    ∀ (g g' : IdGen) (c c' : Nat),
      ((emitOverrideIssues g l c).1).map stripId =
        ((emitOverrideIssues g' l c').1).map stripId := by
  induction l with
  | nil => intro g g' c c'; rfl
  | cons e rest ih =>
    intro g g' c c'
    obtain ⟨pkg, forcedVersion⟩ := e
    unfold emitOverrideIssues
    simp only [List.map_cons, stripId]
    rw [ih g g' (c + 1) (c' + 1)]

theorem detectEngine_stripId (pj : PackageJson) (currentNode : String)
    (g g' : IdGen) (c c' : Nat) :
    ((detectEngineMismatch g c pj currentNode).1).map stripId =
      ((detectEngineMismatch g' c' pj currentNode).1).map stripId := by
  unfold detectEngineMismatch
  cases pj.engines.bind EnginesField.node with
  | none => rfl
  | some required =>
    by_cases h1 : required.isEmpty
    · simp only [if_pos h1]
    · simp only [if_neg h1]
      by_cases h2 : satisfiesVersion currentNode required
      · simp only [if_pos h2]
      · simp only [if_neg h2, List.map_cons, List.map_nil, stripId]

theorem byTypeCount_stripId (l : List ConflictIssue) :
    byTypeCount (l.map stripId) = byTypeCount l := by
  unfold byTypeCount
  rw [List.foldl_map]
  rfl

theorem detectWs_stripId (workspaces : List WorkspaceInfo)
    (g g' : IdGen) (c c' : Nat) :
    ((detectWorkspaceMismatch g c workspaces).1).map stripId =
      ((detectWorkspaceMismatch g' c' workspaces).1).map stripId :=
  emitWsIssues_stripId _ g g' c c'

theorem collectIssues_stripId (input : DetectInput) (facts : CollabFacts)
    (g g' : IdGen) (c c' : Nat) :
    ((collectIssues g c input facts).1).map stripId =
      ((collectIssues g' c' input facts).1).map stripId := by
  unfold collectIssues
  simp only [List.map_append]
  refine congrArg₂ _ (congrArg₂ _ (congrArg₂ _ (congrArg₂ _ ?_ ?_) ?_) ?_) ?_
  · by_cases h : input.checkTypes.contains ConflictType.peer_dependency
    · simp only [if_pos h]; exact detectPeer_stripId _ _ g g' _ _
    · simp only [if_neg h]
  · by_cases h : input.checkTypes.contains ConflictType.multiple_versions
    · simp only [if_pos h]; exact detectMulti_stripId _ _ g g' _ _
    · simp only [if_neg h]
  · by_cases h : (input.checkTypes.contains ConflictType.workspace_mismatch &&
      decide (facts.workspacePackages.length > 0)) = true
    · simp only [if_pos h]; exact detectWs_stripId _ g g' _ _
    · simp only [if_neg h]
  · by_cases h : input.checkTypes.contains ConflictType.override_risk
    · simp only [if_pos h]; exact emitOverrideIssues_stripId _ g g' _ _
    · simp only [if_neg h]
  · by_cases h : input.checkTypes.contains ConflictType.engine_mismatch
    · simp only [if_pos h]; exact detectEngine_stripId _ _ g g' _ _
    · simp only [if_neg h]

theorem filter_stripId {p : ConflictIssue → Bool}
    (hp : ∀ i, p (stripId i) = p i) {l l' : List ConflictIssue}
    (h : l.map stripId = l'.map stripId) :
    (l.filter p).map stripId = (l'.filter p).map stripId := by
  have hcomp : p ∘ stripId = p := funext hp
  have e1 : (l.filter p).map stripId = (l.map stripId).filter p := by
    rw [List.filter_map, hcomp]
  have e2 : (l'.filter p).map stripId = (l'.map stripId).filter p := by
    rw [List.filter_map, hcomp]
  rw [e1, e2, h]

/-- Claim C9: running classification twice on the same unchanged graph
snapshot (identical inputs and identical collaborator outputs) — with
arbitrary id oracles, id counters and timestamps standing in for the two
executions — produces issue lists identical by value once the generated
`id` fields are disregarded. -/
theorem claim_C9_idempotence (input : DetectInput) (facts : CollabFacts)
    (now now' : String) (g g' : IdGen) (c c' : Nat) :
    ((detectConflicts g c input facts now).1.issues).map stripId =
      ((detectConflicts g' c' input facts now').1.issues).map stripId := by
  obtain ⟨cts, sf⟩ := input
  have base := collectIssues_stripId ⟨cts, sf⟩ facts g g' c c'
  cases sf with
  | error =>
    exact @filter_stripId (fun i => i.severity == Severity.error)
      (fun i => rfl) _ _ base
  | warning =>
    exact @filter_stripId (fun i => !(i.severity == Severity.info))
      (fun i => rfl) _ _ base
  | all => exact base

/-! ## Claim C4: the multiple_versions check -/

theorem setAdd_nodup {s : List String} (h : s.Nodup) (v : String) :
    (setAdd s v).Nodup := by
  unfold setAdd
  split
  · exact h
  · rename_i hv
    rw [List.nodup_append]
    refine ⟨h, List.nodup_singleton v, ?_⟩
    intro a ha hav
    simp only [List.mem_singleton] at hav
    subst hav
    exact hv ha

theorem vmAdd_keys_mem (m : List (String × List String)) (a name v : String) :
    a ∈ (vmAdd m name v).map Prod.fst ↔ a ∈ m.map Prod.fst ∨ a = name := by
  induction m with
  | nil => simp [vmAdd]
  | cons kv rest ih =>
    obtain ⟨k, vs⟩ := kv
    unfold vmAdd
    by_cases hk : k = name
    · subst hk
      by_cases hak : a = k <;> simp [hak]
    · simp only [if_neg hk, List.map_cons, List.mem_cons, ih]
      tauto

theorem vmAdd_keysNodup {m : List (String × List String)}
    (h : (m.map Prod.fst).Nodup) (name v : String) :
    ((vmAdd m name v).map Prod.fst).Nodup := by
  induction m with
  | nil => simp [vmAdd]
  | cons kv rest ih =>
    obtain ⟨k, vs⟩ := kv
    simp only [List.map_cons, List.nodup_cons] at h
    unfold vmAdd
    by_cases hk : k = name
    · subst hk
      rw [if_pos rfl]
      simp only [List.map_cons, List.nodup_cons]
      exact h
    · simp only [if_neg hk, List.map_cons, List.nodup_cons]
      refine ⟨?_, ih h.2⟩
      rw [vmAdd_keys_mem]
      rintro (hmem | heq)
      · exact h.1 hmem
      · exact hk heq

theorem vmAdd_vals_nodup {m : List (String × List String)}
    (h : ∀ e ∈ m, (e.2 : List String).Nodup) (name v : String) :
    ∀ e ∈ vmAdd m name v, (e.2 : List String).Nodup := by
  induction m with
  | nil =>
    intro e he
    simp only [vmAdd, List.mem_singleton] at he
    subst he
    exact List.nodup_singleton v
  | cons kv rest ih =>
    obtain ⟨k, vs⟩ := kv
    unfold vmAdd
    by_cases hk : k = name
    · subst hk
      simp only [if_pos rfl]
      intro e he
      rcases List.mem_cons.mp he with he1 | he2
      · subst he1
        exact setAdd_nodup (h (k, vs) (by simp)) v
      · exact h e (List.mem_cons_of_mem _ he2)
    · simp only [if_neg hk]
      intro e he
      rcases List.mem_cons.mp he with he1 | he2
      · subst he1
        exact h (k, vs) (by simp)
      · exact ih (fun e' he' => h e' (List.mem_cons_of_mem _ he')) e he2

theorem collect_keysNodup (d : NpmDeps) :
    ∀ m, (m.map Prod.fst).Nodup →
      ((collectNpmVersions d m).map Prod.fst).Nodup := by
  induction d with
  | nil => intro m hm; exact hm
  | cons name version children rest ihc ihr =>
    intro m hm
    unfold collectNpmVersions
    apply ihr
    apply ihc
    cases version with
    | none => exact hm
    | some v =>
      by_cases hv : v.isEmpty <;> simp only [hv, if_pos, if_neg, if_true, if_false]
      · exact hm
      · exact vmAdd_keysNodup hm name v

theorem collect_valsNodup (d : NpmDeps) :
    ∀ m, (∀ e ∈ m, (e.2 : List String).Nodup) →
      ∀ e ∈ collectNpmVersions d m, (e.2 : List String).Nodup := by
  induction d with
  | nil => intro m hm; exact hm
  | cons name version children rest ihc ihr =>
    intro m hm
    unfold collectNpmVersions
    apply ihr
    apply ihc
    cases version with
    | none => exact hm
    | some v =>
      by_cases hv : v.isEmpty <;> simp only [hv, if_pos, if_neg, if_true, if_false]
      · exact hm
      · exact vmAdd_vals_nodup hm name v

theorem lookup_mem {α β : Type} [BEq α] [LawfulBEq α]
    {l : List (α × β)} {k : α} {v : β}
    (h : List.lookup k l = some v) : (k, v) ∈ l := by
  induction l with
  | nil => cases h
  | cons kv rest ih =>
    obtain ⟨k0, v0⟩ := kv
    by_cases hbeq : (k == k0) = true
    · simp only [List.lookup, hbeq] at h
      injection h with hv
      subst hv
      have : k = k0 := eq_of_beq hbeq
      subst this
      exact List.mem_cons_self _ _
    · simp only [List.lookup, Bool.not_eq_true] at hbeq h
      rw [hbeq] at h
      exact List.mem_cons_of_mem _ (ih h)

theorem emitMulti_package_none (g : IdGen)
    (l : List (String × List String)) (p : String)
    (hp : p ∉ l.map Prod.fst) :
    ∀ c, ((emitMultiIssues g l c).1).filter (fun i => i.package == p) = [] := by
  induction l with
  | nil => intro c; rfl
  | cons kv rest ih =>
    obtain ⟨k, vs⟩ := kv
    simp only [List.map_cons, List.mem_cons, not_or] at hp
    intro c
    unfold emitMultiIssues
    by_cases hlen : vs.length > 1
    · simp only [if_pos hlen]
      have hkp : (k == p) = false := by
        simp only [beq_eq_false_iff_ne, ne_eq]
        intro hk; exact hp.1 hk.symm
      simp only [List.filter_cons, hkp, if_neg, Bool.false_eq_true]
      exact ih hp.2 (c + 1)
    · simp only [if_neg hlen]
      exact ih hp.2 c

theorem emitMulti_package_char (g : IdGen) (l : List (String × List String))
    (hnd : (l.map Prod.fst).Nodup) (p : String) :
    ∀ c, (((emitMultiIssues g l c).1).filter (fun i => i.package == p)).map
        (fun i => i.severity) =
      (match List.lookup p l with
       | some vs =>
         if vs.length > 1 then
           [if vs.length > 2 then Severity.warning else Severity.info]
         else []
       | none => []) := by
  induction l with
  | nil => intro c; rfl
  | cons kv rest ih =>
    obtain ⟨k, vs⟩ := kv
    simp only [List.map_cons, List.nodup_cons] at hnd
    intro c
    unfold emitMultiIssues
    by_cases hkp : k = p
    · subst hkp
      have hlk : List.lookup k ((k, vs) :: rest) = some vs := by
        simp [List.lookup]
      rw [hlk]
      by_cases hlen : vs.length > 1
      · simp only [if_pos hlen]
        have hfilter := emitMulti_package_none g rest k hnd.1 (c + 1)
        simp only [List.filter_cons, beq_self_eq_true, if_pos, hfilter]
        simp [hlen]
      · simp only [if_neg hlen]
        have hfilter := emitMulti_package_none g rest k hnd.1 c
        rw [hfilter]
        rfl
    · have hlk : List.lookup p ((k, vs) :: rest) = List.lookup p rest := by
        simp only [List.lookup]
        have : (p == k) = false := by
          simp only [beq_eq_false_iff_ne, ne_eq]
          exact fun h => hkp h.symm
        rw [this]
      rw [hlk]
      by_cases hlen : vs.length > 1
      · simp only [if_pos hlen]
        have hkpb : (k == p) = false := by
          simp only [beq_eq_false_iff_ne, ne_eq]
          exact hkp
        simp only [List.filter_cons, hkpb, Bool.false_eq_true, if_neg]
        exact ih hnd.2 (c + 1)
      · simp only [if_neg hlen]
        exact ih hnd.2 c

/-- Claim C4: on a parsed `npm ls` tree, for every package `p` with `n`
distinct resolved versions, the multiple_versions check emits exactly one
record for `p` when `n > 1` — with severity `warning` iff `n > 2` and `info`
otherwise — and no record when `n ≤ 1`; the recorded version list is indeed
duplicate-free (so `n` counts distinct versions). -/
theorem claim_C4_multiple_versions (g : IdGen) (c : Nat) (tree : NpmDeps)
    (stderrStr : String) (p : String) :
    ((((detectMultipleVersions g c "npm" ⟨.parsed tree, stderrStr⟩).1).filter
        (fun i => i.package == p)).map (fun i => i.severity) =
      (if (distinctVersionsOf tree p).length > 1 then
        [if (distinctVersionsOf tree p).length > 2 then Severity.warning
         else Severity.info]
       else [])) ∧
    (distinctVersionsOf tree p).Nodup := by
  constructor
  · have hnd : ((collectNpmVersions tree []).map Prod.fst).Nodup :=
      collect_keysNodup tree [] (by simp)
    have hchar := emitMulti_package_char g (collectNpmVersions tree []) hnd p c
    show (((emitMultiIssues g (collectNpmVersions tree []) c).1).filter
        (fun i => i.package == p)).map (fun i => i.severity) = _
    rw [hchar]
    unfold distinctVersionsOf
    cases List.lookup p (collectNpmVersions tree []) with
    | none => simp
    | some vs => simp
  · unfold distinctVersionsOf
    cases hlk : List.lookup p (collectNpmVersions tree []) with
    | none => simp
    | some vs =>
      simp only [Option.getD_some]
      have hmem : (p, vs) ∈ collectNpmVersions tree [] := lookup_mem hlk
      exact collect_valsNodup tree [] (by intro e he; cases he) (p, vs) hmem

theorem emitWs_package_none (g : IdGen) (l : List (String × WsGroups))
    (p : String) (hp : p ∉ l.map Prod.fst) :
    ∀ c, ((emitWsIssues g l c).1).filter (fun i => i.package == p) = [] := by
  induction l with
  | nil => intro c; rfl
  | cons kv rest ih =>
    obtain ⟨k, gs⟩ := kv
    simp only [List.map_cons, List.mem_cons, not_or] at hp
    intro c
    unfold emitWsIssues
    by_cases hlen : gs.length > 1
    · simp only [if_pos hlen]
      have hkp : (k == p) = false := by
        simp only [beq_eq_false_iff_ne, ne_eq]
        intro hk; exact hp.1 hk.symm
      simp only [List.filter_cons, hkp, Bool.false_eq_true, if_neg]
      exact ih hp.2 (c + 1)
    · simp only [if_neg hlen]
      exact ih hp.2 c

theorem emitWs_package_char (g : IdGen) (l : List (String × WsGroups))
    (hnd : (l.map Prod.fst).Nodup) (p : String) :
    ∀ c, (((emitWsIssues g l c).1).filter (fun i => i.package == p)).map stripId =
      (match List.lookup p l with
       | some gs => if gs.length > 1 then [wsIssueVal p gs] else []
       | none => []) := by
  induction l with
  | nil => intro c; rfl
  | cons kv rest ih =>
    obtain ⟨k, gs⟩ := kv
    simp only [List.map_cons, List.nodup_cons] at hnd
    intro c
    unfold emitWsIssues
    by_cases hkp : k = p
    · subst hkp
      have hlk : List.lookup k ((k, gs) :: rest) = some gs := by
        simp [List.lookup]
      rw [hlk]
      by_cases hlen : gs.length > 1
      · simp only [if_pos hlen]
        have hfilter := emitWs_package_none g rest k hnd.1 (c + 1)
        simp only [List.filter_cons, beq_self_eq_true, if_pos, hfilter]
        simp [stripId, wsIssueVal]
      · simp only [if_neg hlen]
        have hfilter := emitWs_package_none g rest k hnd.1 c
        rw [hfilter]
        rfl
    · have hlk : List.lookup p ((k, gs) :: rest) = List.lookup p rest := by
        simp only [List.lookup]
        have : (p == k) = false := by
          simp only [beq_eq_false_iff_ne, ne_eq]
          exact fun h => hkp h.symm
        rw [this]
      rw [hlk]
      by_cases hlen : gs.length > 1
      · simp only [if_pos hlen]
        have hkpb : (k == p) = false := by
          simp only [beq_eq_false_iff_ne, ne_eq]
          exact hkp
        simp only [List.filter_cons, hkpb, Bool.false_eq_true, if_neg]
        exact ih hnd.2 (c + 1)
      · simp only [if_neg hlen]
        exact ih hnd.2 c

theorem depVersionsAdd_keys_mem (m : List (String × WsGroups))
    (a name ver wsName : String) :
    a ∈ (depVersionsAdd m name ver wsName).map Prod.fst ↔
      a ∈ m.map Prod.fst ∨ a = name := by
  induction m with
  | nil => simp [depVersionsAdd]
  | cons kv rest ih =>
    obtain ⟨k, gs⟩ := kv
    unfold depVersionsAdd
    by_cases hk : k = name
    · subst hk
      by_cases hak : a = k <;> simp [hak]
    · simp only [if_neg hk, List.map_cons, List.mem_cons, ih]
      tauto

theorem depVersionsAdd_keysNodup {m : List (String × WsGroups)}
    (h : (m.map Prod.fst).Nodup) (name ver wsName : String) :
    ((depVersionsAdd m name ver wsName).map Prod.fst).Nodup := by
  induction m with
  | nil => simp [depVersionsAdd]
  | cons kv rest ih =>
    obtain ⟨k, gs⟩ := kv
    simp only [List.map_cons, List.nodup_cons] at h
    unfold depVersionsAdd
    by_cases hk : k = name
    · subst hk
      rw [if_pos rfl]
      simp only [List.map_cons, List.nodup_cons]
      exact h
    · simp only [if_neg hk, List.map_cons, List.nodup_cons]
      refine ⟨?_, ih h.2⟩
      rw [depVersionsAdd_keys_mem]
      rintro (hmem | heq)
      · exact h.1 hmem
      · exact hk heq

theorem wsGroupsAdd_lookup (gs : WsGroups) (r r' n' : String) :
    List.lookup r (wsGroupsAdd gs r' n') =
      if r = r' then some (((List.lookup r gs).getD []) ++ [n'])
      else List.lookup r gs := by
  induction gs with
  | nil =>
    by_cases hr : r = r'
    · subst hr; simp [wsGroupsAdd, List.lookup]
    · have : (r == r') = false := by simpa using hr
      simp [wsGroupsAdd, List.lookup, this, hr]
  | cons kv rest ih =>
    obtain ⟨v, ns⟩ := kv
    unfold wsGroupsAdd
    by_cases hv : v = r'
    · subst hv
      rw [if_pos rfl]
      by_cases hrv : r = v
      · subst hrv
        simp [List.lookup]
      · have h1 : (r == v) = false := by simpa using hrv
        simp [List.lookup, h1, hrv]
    · simp only [if_neg hv]
      by_cases hrv : r = v
      · subst hrv
        have : ¬ r = r' := fun h => hv h
        simp [List.lookup, this]
      · have h1 : (r == v) = false := by simpa using hrv
        simp only [List.lookup, h1]
        exact ih

theorem depVersionsAdd_lookup (m : List (String × WsGroups))
    (k k' r' n' : String) :
    List.lookup k (depVersionsAdd m k' r' n') =
      if k = k' then some (wsGroupsAdd ((List.lookup k m).getD []) r' n')
      else List.lookup k m := by
  induction m with
  | nil =>
    by_cases hk : k = k'
    · subst hk
      simp [depVersionsAdd, List.lookup, wsGroupsAdd]
    · have : (k == k') = false := by simpa using hk
      simp [depVersionsAdd, List.lookup, this, hk]
  | cons kv rest ih =>
    obtain ⟨k0, gs⟩ := kv
    unfold depVersionsAdd
    by_cases hk0 : k0 = k'
    · subst hk0
      rw [if_pos rfl]
      by_cases hkk : k = k0
      · subst hkk
        simp [List.lookup]
      · have h1 : (k == k0) = false := by simpa using hkk
        simp [List.lookup, h1, hkk]
    · simp only [if_neg hk0]
      by_cases hkk : k = k0
      · subst hkk
        have : ¬ k = k' := fun h => hk0 h
        simp [List.lookup, this]
      · have h1 : (k == k0) = false := by simpa using hkk
        simp only [List.lookup, h1]
        exact ih

theorem InG_add_self (m : List (String × WsGroups)) (k r n : String) :
    InG (depVersionsAdd m k r n) k r n := by
  refine ⟨wsGroupsAdd ((List.lookup k m).getD []) r n,
    ((List.lookup r ((List.lookup k m).getD [])).getD []) ++ [n], ?_, ?_, ?_⟩
  · rw [depVersionsAdd_lookup, if_pos rfl]
  · rw [wsGroupsAdd_lookup, if_pos rfl]
  · simp

theorem InG_add_mono {m : List (String × WsGroups)} {k r n : String}
    (h : InG m k r n) (k' r' n' : String) :
    InG (depVersionsAdd m k' r' n') k r n := by
  obtain ⟨gs, ns, h1, h2, h3⟩ := h
  by_cases hk : k = k'
  · subst hk
    by_cases hr : r = r'
    · subst hr
      refine ⟨wsGroupsAdd gs r n', ns ++ [n'], ?_, ?_, ?_⟩
      · rw [depVersionsAdd_lookup, if_pos rfl, h1]
        rfl
      · rw [wsGroupsAdd_lookup, if_pos rfl, h2]
        rfl
      · exact List.mem_append.mpr (Or.inl h3)
    · refine ⟨wsGroupsAdd gs r' n', ns, ?_, ?_, h3⟩
      · rw [depVersionsAdd_lookup, if_pos rfl, h1]
        rfl
      · rw [wsGroupsAdd_lookup, if_neg hr]
        exact h2
  · refine ⟨gs, ns, ?_, h2, h3⟩
    rw [depVersionsAdd_lookup, if_neg hk]
    exact h1

theorem entryFold_mono {m : List (String × WsGroups)} {k r n : String}
    (h : InG m k r n) (n' : String) (entries : List (String × String)) :
    InG (entryFold n' m entries) k r n := by
  induction entries generalizing m with
  | nil => exact h
  | cons kv rest ih => exact ih (InG_add_mono h kv.1 kv.2 n')

theorem entryFold_mem {k r : String} (n' : String)
    (entries : List (String × String)) (hmem : (k, r) ∈ entries) :
    ∀ m, InG (entryFold n' m entries) k r n' := by
  induction entries with
  | nil => cases hmem
  | cons kv rest ih =>
    intro m
    rcases List.mem_cons.mp hmem with h1 | h1
    · subst h1
      exact entryFold_mono (InG_add_self m k r n') n' rest
    · exact ih h1 (depVersionsAdd m kv.1 kv.2 n')

theorem entryFold_keysNodup {m : List (String × WsGroups)}
    (h : (m.map Prod.fst).Nodup) (n' : String)
    (entries : List (String × String)) :
    ((entryFold n' m entries).map Prod.fst).Nodup := by
  induction entries generalizing m with
  | nil => exact h
  | cons kv rest ih => exact ih (depVersionsAdd_keysNodup h kv.1 kv.2 n')

theorem buildDepVersions_eq (workspaces : List WorkspaceInfo) :
    buildDepVersions workspaces =
      workspaces.foldl (fun m ws => entryFold ws.name m (allDepsOf ws)) [] := rfl

theorem buildFold_mono {m : List (String × WsGroups)} {k r n : String}
    (h : InG m k r n) (l : List WorkspaceInfo) :
    InG (l.foldl (fun m2 ws => entryFold ws.name m2 (allDepsOf ws)) m) k r n := by
  induction l generalizing m with
  | nil => exact h
  | cons w rest ih => exact ih (entryFold_mono h w.name (allDepsOf w))

theorem buildFold_mem {k r : String} {ws : WorkspaceInfo}
    (l : List WorkspaceInfo) (hws : ws ∈ l) (hkr : (k, r) ∈ allDepsOf ws) :
    ∀ m, InG (l.foldl (fun m2 w => entryFold w.name m2 (allDepsOf w)) m) k r
      ws.name := by
  induction l with
  | nil => cases hws
  | cons w rest ih =>
    intro m
    rcases List.mem_cons.mp hws with h1 | h1
    · subst h1
      exact buildFold_mono (entryFold_mem ws.name (allDepsOf ws) hkr m) rest
    · exact ih h1 (entryFold w.name m (allDepsOf w))

theorem buildDepVersions_keysNodup (workspaces : List WorkspaceInfo) :
    ((buildDepVersions workspaces).map Prod.fst).Nodup := by
  rw [buildDepVersions_eq]
  have : ∀ (l : List WorkspaceInfo) (m : List (String × WsGroups)),
      (m.map Prod.fst).Nodup →
      ((l.foldl (fun m2 ws => entryFold ws.name m2 (allDepsOf ws)) m).map
        Prod.fst).Nodup := by
    intro l
    induction l with
    | nil => intro m hm; exact hm
    | cons w rest ih =>
      intro m hm
      exact ih _ (entryFold_keysNodup hm w.name (allDepsOf w))
  exact this workspaces [] (by simp)

/-- Claim C6: for every package name `p`, the workspace_mismatch check
groups workspace members by the textual requirement string they declare for
`p` and emits exactly one record — value-identical to `wsIssueVal` applied
to the groups — precisely when more than one distinct requirement string is
observed; and every `(member, requirement)` pair declared for `p` appears in
the groups the record lists. -/
theorem claim_C6_workspace_mismatch (g : IdGen) (c : Nat)
    (workspaces : List WorkspaceInfo) (p : String) :
    ((((detectWorkspaceMismatch g c workspaces).1).filter
        (fun i => i.package == p)).map stripId =
      (match List.lookup p (buildDepVersions workspaces) with
       | some gs => if gs.length > 1 then [wsIssueVal p gs] else []
       | none => [])) ∧
    (∀ ws ∈ workspaces, ∀ r, List.lookup p (allDepsOf ws) = some r →
      ∃ gs ns, List.lookup p (buildDepVersions workspaces) = some gs ∧
        List.lookup r gs = some ns ∧ ws.name ∈ ns) := by
  constructor
  · exact emitWs_package_char g (buildDepVersions workspaces)
      (buildDepVersions_keysNodup workspaces) p c
  · intro ws hws r hlk
    have hmem : (p, r) ∈ allDepsOf ws := lookup_mem hlk
    rw [buildDepVersions_eq]
    exact buildFold_mem workspaces hws hmem []

/-- Witness for C6: members `A` (`lodash@^4.0.0`) and `B` (`lodash@^3.0.0`)
yield exactly one `workspace_mismatch` record for `lodash` listing both
pairs; two textually different but semver-equivalent requirement strings
(`1.2.3` vs `=1.2.3`) still count as a mismatch. -/
theorem claim_C6_witness :
    (((detectWorkspaceMismatch (fun n => toString n) 0 [wsA, wsB]).1).filter
      (fun i => i.package == "lodash")).length = 1 ∧
    (∃ gs ns, List.lookup "lodash" (buildDepVersions [wsA, wsB]) = some gs ∧
      List.lookup "^4.0.0" gs = some ns ∧ "A" ∈ ns) ∧
    satisfiesVersion "1.2.3" "=1.2.3" = true ∧
    (((detectWorkspaceMismatch (fun n => toString n) 0 [wsC, wsD]).1).filter
      (fun i => i.package == "lodash")).length = 1 := by
  refine ⟨?_, ?_, by decide, ?_⟩
  · have h := (claim_C6_workspace_mismatch (fun n => toString n) 0
      [wsA, wsB] "lodash").1
    have hlen := congrArg List.length h
    simp only [List.length_map] at hlen
    rw [hlen]
    decide
  · exact (claim_C6_workspace_mismatch (fun n => toString n) 0
      [wsA, wsB] "lodash").2 wsA (by decide) "^4.0.0" (by decide)
  · have h := (claim_C6_workspace_mismatch (fun n => toString n) 0
      [wsC, wsD] "lodash").1
    have hlen := congrArg List.length h
    simp only [List.length_map] at hlen
    rw [hlen]
    decide

/-! ## Claim C1: the deduplication invariant -/

theorem countP_filter_le (p q : ConflictIssue → Bool) (l : List ConflictIssue) :
    (l.filter q).countP p ≤ l.countP p := by
  rw [List.countP_filter]
  refine List.countP_mono_left ?_
  intro x _ h
  simp only [Bool.and_eq_true] at h
  exact h.1

theorem countP_and_le (a b : ConflictIssue → Bool) (l : List ConflictIssue) :
    l.countP (fun i => a i && b i) ≤ l.countP b := by
  refine List.countP_mono_left ?_
  intro x _ h
  simp only [Bool.and_eq_true] at h
  exact h.2

theorem countP_zero_of_type {l : List ConflictIssue} {t : ConflictType}
    (hall : ∀ i ∈ l, i.type = t) {t' : ConflictType} (hne : t' ≠ t)
    (p : ConflictIssue → Bool) :
    l.countP (fun i => i.type == t' && p i) = 0 := by
  rw [List.countP_eq_zero]
  intro i hi
  simp only [Bool.and_eq_true, beq_iff_eq]
  rintro ⟨h1, _⟩
  rw [hall i hi] at h1
  exact hne h1.symm

theorem emitPeerProblems_types (g : IdGen) (l : List String) :
    ∀ c, ∀ i ∈ (emitPeerProblems g l c).1, i.type = .peer_dependency := by
  induction l with
  | nil => intro c i hi; cases hi
  | cons problem rest ih =>
    intro c i hi
    unfold emitPeerProblems at hi
    cases hm : matchPeerProblem problem with
    | none =>
      rw [hm] at hi
      exact ih c i hi
    | some t =>
      obtain ⟨p1, p2, p3⟩ := t
      rw [hm] at hi
      rcases List.mem_cons.mp hi with h1 | h1
      · rw [h1]
      · exact ih (c + 1) i h1

theorem emitPeerWarnings_types (g : IdGen) (l : List String) :
    ∀ c, ∀ i ∈ (emitPeerWarnings g l c).1, i.type = .peer_dependency := by
  induction l with
  | nil => intro c i hi; cases hi
  | cons w rest ih =>
    intro c i hi
    unfold emitPeerWarnings at hi
    rcases List.mem_cons.mp hi with h1 | h1
    · rw [h1]
    · exact ih (c + 1) i h1

theorem detectPeer_types (g : IdGen) (c : Nat) (pm : String)
    (res : PeerExecResult) :
    ∀ i ∈ (detectPeerDependencyIssues g c pm res).1,
      i.type = .peer_dependency := by
  obtain ⟨sout, serr⟩ := res
  intro i hi
  unfold detectPeerDependencyIssues at hi
  split at hi
  · cases hi
  · rcases List.mem_append.mp hi with h1 | h1
    · by_cases hpm : pm = "npm"
      · rw [if_pos hpm] at h1
        cases sout with
        | empty => cases h1
        | malformed => cases h1
        | parsed data =>
          obtain ⟨probs?⟩ := data
          cases probs? with
          | none => cases h1
          | some probs => exact emitPeerProblems_types g probs c i h1
      · rw [if_neg hpm] at h1
        cases h1
    · exact emitPeerWarnings_types g _ _ i h1

theorem emitMultiIssues_types (g : IdGen) (l : List (String × List String)) :
    ∀ c, ∀ i ∈ (emitMultiIssues g l c).1, i.type = .multiple_versions := by
  induction l with
  | nil => intro c i hi; cases hi
  | cons kv rest ih =>
    obtain ⟨k, vs⟩ := kv
    intro c i hi
    unfold emitMultiIssues at hi
    by_cases hlen : vs.length > 1
    · rw [if_pos hlen] at hi
      rcases List.mem_cons.mp hi with h1 | h1
      · rw [h1]
      · exact ih (c + 1) i h1
    · rw [if_neg hlen] at hi
      exact ih c i hi

theorem emitWsIssues_types (g : IdGen) (l : List (String × WsGroups)) :
    ∀ c, ∀ i ∈ (emitWsIssues g l c).1, i.type = .workspace_mismatch := by
  induction l with
  | nil => intro c i hi; cases hi
  | cons kv rest ih =>
    obtain ⟨k, gs⟩ := kv
    intro c i hi
    unfold emitWsIssues at hi
    by_cases hlen : gs.length > 1
    · rw [if_pos hlen] at hi
      rcases List.mem_cons.mp hi with h1 | h1
      · rw [h1]
      · exact ih (c + 1) i h1
    · rw [if_neg hlen] at hi
      exact ih c i hi

theorem emitOverrideIssues_types (g : IdGen) (l : List (String × String)) :
    ∀ c, ∀ i ∈ (emitOverrideIssues g l c).1, i.type = .override_risk := by
  induction l with
  | nil => intro c i hi; cases hi
  | cons kv rest ih =>
    obtain ⟨pkg, fv⟩ := kv
    intro c i hi
    unfold emitOverrideIssues at hi
    rcases List.mem_cons.mp hi with h1 | h1
    · rw [h1]
    · exact ih (c + 1) i h1

theorem detectEngine_types (g : IdGen) (c : Nat) (pj : PackageJson)
    (cur : String) :
    ∀ i ∈ (detectEngineMismatch g c pj cur).1, i.type = .engine_mismatch := by
  intro i hi
  unfold detectEngineMismatch at hi
  split at hi
  · cases hi
  · split at hi
    · cases hi
    · split at hi
      · cases hi
      · rcases List.mem_cons.mp hi with h3 | h3
        · rw [h3]
        · cases h3

theorem emitMulti_countP_le (g : IdGen) (l : List (String × List String))
    (hnd : (l.map Prod.fst).Nodup) (p : String) (c : Nat) :
    ((emitMultiIssues g l c).1).countP (fun i => i.package == p) ≤ 1 := by
  rw [List.countP_eq_length_filter]
  have h := emitMulti_package_char g l hnd p c
  have hlen := congrArg List.length h
  simp only [List.length_map] at hlen
  rw [hlen]
  cases List.lookup p l with
  | none => simp
  | some vs =>
    by_cases hl : vs.length > 1 <;> simp [hl]

theorem emitWs_countP_le (g : IdGen) (l : List (String × WsGroups))
    (hnd : (l.map Prod.fst).Nodup) (p : String) (c : Nat) :
    ((emitWsIssues g l c).1).countP (fun i => i.package == p) ≤ 1 := by
  rw [List.countP_eq_length_filter]
  have h := emitWs_package_char g l hnd p c
  have hlen := congrArg List.length h
  simp only [List.length_map] at hlen
  rw [hlen]
  cases List.lookup p l with
  | none => simp
  | some gs =>
    by_cases hl : gs.length > 1 <;> simp [hl]

theorem detectMulti_countP_le (g : IdGen) (c : Nat) (pm : String)
    (res : LsExecResult) (p : String) :
    ((detectMultipleVersions g c pm res).1).countP (fun i => i.package == p) ≤ 1 := by
  obtain ⟨sout, serr⟩ := res
  unfold detectMultipleVersions
  split
  · simp
  · by_cases hpm : pm = "npm"
    · rw [if_pos hpm]
      cases sout with
      | empty => exact emitMulti_countP_le g [] (by simp) p c
      | malformed => exact emitMulti_countP_le g [] (by simp) p c
      | parsed deps =>
        exact emitMulti_countP_le g _ (collect_keysNodup deps [] (by simp)) p c
    · rw [if_neg hpm]
      exact emitMulti_countP_le g [] (by simp) p c

theorem detectEngine_length_le (g : IdGen) (c : Nat) (pj : PackageJson)
    (cur : String) :
    ((detectEngineMismatch g c pj cur).1).length ≤ 1 := by
  unfold detectEngineMismatch
  cases pj.engines.bind EnginesField.node with
  | none => simp
  | some required =>
    by_cases h1 : required.isEmpty
    · simp [h1]
    · by_cases h2 : satisfiesVersion cur required <;> simp [h1, h2]

theorem detectWs_types (g : IdGen) (c : Nat) (ws : List WorkspaceInfo) :
    ∀ i ∈ (detectWorkspaceMismatch g c ws).1, i.type = .workspace_mismatch :=
  emitWsIssues_types g (buildDepVersions ws) c

theorem detectOverride_types (g : IdGen) (c : Nat)
    (ov : List (String × String)) (pj : PackageJson) :
    ∀ i ∈ (detectOverrideRisks g c ov pj).1, i.type = .override_risk :=
  emitOverrideIssues_types g ov c

theorem detectMulti_types (g : IdGen) (c : Nat) (pm : String)
    (res : LsExecResult) :
    ∀ i ∈ (detectMultipleVersions g c pm res).1,
      i.type = .multiple_versions := by
  obtain ⟨sout, serr⟩ := res
  intro i hi
  unfold detectMultipleVersions at hi
  split at hi
  · cases hi
  · by_cases hpm : pm = "npm"
    · rw [if_pos hpm] at hi
      cases sout with
      | empty => exact emitMultiIssues_types g [] c i hi
      | malformed => exact emitMultiIssues_types g [] c i hi
      | parsed deps => exact emitMultiIssues_types g _ c i hi
    · rw [if_neg hpm] at hi
      exact emitMultiIssues_types g [] c i hi

theorem detectWs_countP_le (g : IdGen) (c : Nat) (ws : List WorkspaceInfo)
    (p : String) :
    ((detectWorkspaceMismatch g c ws).1).countP (fun i => i.package == p) ≤ 1 :=
  emitWs_countP_le g (buildDepVersions ws) (buildDepVersions_keysNodup ws) p c

theorem detectEngine_countP_le (g : IdGen) (c : Nat) (pj : PackageJson)
    (cur : String) (p : ConflictIssue → Bool) :
    ((detectEngineMismatch g c pj cur).1).countP p ≤ 1 :=
  le_trans (List.countP_le_length p) (detectEngine_length_le g c pj cur)

theorem countP_ite_le {cond : Prop} [Decidable cond]
    {X Y : List ConflictIssue × Nat} {p : ConflictIssue → Bool} {n : Nat}
    (hx : X.1.countP p ≤ n) (hy : Y.1.countP p ≤ n) :
    ((if cond then X else Y).1).countP p ≤ n := by
  split <;> assumption

theorem countP_ite_eq_zero {cond : Prop} [Decidable cond]
    {X Y : List ConflictIssue × Nat} {p : ConflictIssue → Bool}
    (hx : X.1.countP p = 0) (hy : Y.1.countP p = 0) :
    ((if cond then X else Y).1).countP p = 0 := by
  split <;> assumption

theorem countP_ite_and_le {cond : Prop} [Decidable cond]
    {X Y : List ConflictIssue × Nat} (a b : ConflictIssue → Bool)
    (hx : X.1.countP b ≤ 1) (hy : Y.1.countP b ≤ 1) :
    ((if cond then X else Y).1).countP (fun i => a i && b i) ≤ 1 := by
  refine le_trans (countP_and_le a b _) ?_
  split <;> assumption

theorem countP_pipeline_le {l1 l2 l3 l4 l5 : List ConflictIssue}
    {n1 n2 n3 n4 n5 : Nat} (p : ConflictIssue → Bool)
    (h1 : l1.countP p ≤ n1) (h2 : l2.countP p ≤ n2) (h3 : l3.countP p ≤ n3)
    (h4 : l4.countP p ≤ n4) (h5 : l5.countP p ≤ n5) :
    (l1 ++ l2 ++ l3 ++ l4 ++ l5).countP p ≤ n1 + n2 + n3 + n4 + n5 := by
  simp only [List.countP_append]
  omega

/-- Count bound of the well-behaved checks over one full collection pass. -/
theorem collect_countP_le_of_type (g : IdGen) (c : Nat) (input : DetectInput)
    (facts : CollabFacts) (p : String) :
    ((collectIssues g c input facts).1).countP
        (fun i => i.type == ConflictType.multiple_versions && i.package == p) ≤ 1 ∧
    ((collectIssues g c input facts).1).countP
        (fun i => i.type == ConflictType.workspace_mismatch && i.package == p) ≤ 1 ∧
    ((collectIssues g c input facts).1).countP
        (fun i => i.type == ConflictType.engine_mismatch && i.package == p) ≤ 1 := by
  refine ⟨?_, ?_, ?_⟩
  · refine le_trans (countP_pipeline_le _
      (le_of_eq (countP_ite_eq_zero
        (countP_zero_of_type (detectPeer_types g _ _ _) (by decide) _) rfl))
      (countP_ite_and_le _ _ (detectMulti_countP_le g _ _ _ p) (by simp))
      (le_of_eq (countP_ite_eq_zero
        (countP_zero_of_type (detectWs_types g _ _) (by decide) _) rfl))
      (le_of_eq (countP_ite_eq_zero
        (countP_zero_of_type (detectOverride_types g _ _ _) (by decide) _) rfl))
      (le_of_eq (countP_ite_eq_zero
        (countP_zero_of_type (detectEngine_types g _ _ _) (by decide) _) rfl)))
      (by omega)
  · refine le_trans (countP_pipeline_le _
      (le_of_eq (countP_ite_eq_zero
        (countP_zero_of_type (detectPeer_types g _ _ _) (by decide) _) rfl))
      (le_of_eq (countP_ite_eq_zero
        (countP_zero_of_type (detectMulti_types g _ _ _) (by decide) _) rfl))
      (countP_ite_and_le _ _ (detectWs_countP_le g _ _ p) (by simp))
      (le_of_eq (countP_ite_eq_zero
        (countP_zero_of_type (detectOverride_types g _ _ _) (by decide) _) rfl))
      (le_of_eq (countP_ite_eq_zero
        (countP_zero_of_type (detectEngine_types g _ _ _) (by decide) _) rfl)))
      (by omega)
  · refine le_trans (countP_pipeline_le _
      (le_of_eq (countP_ite_eq_zero
        (countP_zero_of_type (detectPeer_types g _ _ _) (by decide) _) rfl))
      (le_of_eq (countP_ite_eq_zero
        (countP_zero_of_type (detectMulti_types g _ _ _) (by decide) _) rfl))
      (le_of_eq (countP_ite_eq_zero
        (countP_zero_of_type (detectWs_types g _ _) (by decide) _) rfl))
      (le_of_eq (countP_ite_eq_zero
        (countP_zero_of_type (detectOverride_types g _ _ _) (by decide) _) rfl))
      (countP_ite_le (detectEngine_countP_le g _ _ _ _) (by simp)))
      (by omega)

theorem detect_countP_le (g : IdGen) (c : Nat) (input : DetectInput)
    (facts : CollabFacts) (now : String) (p : ConflictIssue → Bool) :
    ((detectConflicts g c input facts now).1.issues).countP p ≤
      ((collectIssues g c input facts).1).countP p := by
  obtain ⟨cts, sf⟩ := input
  cases sf with
  | all => exact Nat.le_refl _
  | error => exact countP_filter_le _ _ _
  | warning => exact countP_filter_le _ _ _

/-- Counterexample to claim C1 as stated: one classification pass (checking
`override_risk` under an `overrides` object with keys `react>classnames` and
`classnames`) emits two `ConflictRecord`s with the same
`(override_risk, classnames)` type/package pair, so not every check
deduplicates by `(type, package)`. -/
theorem claim_C1_counterexample :
    ((detectConflicts (fun n => toString n) 0 ⟨[.override_risk], .all⟩
        overrideDupFacts "t").1.issues).countP
      (fun i => i.type == ConflictType.override_risk &&
        i.package == "classnames") = 2 := by
  decide

/-- Claim C1 amended: the `multiple_versions`, `workspace_mismatch` and
`engine_mismatch` checks emit at most one record per `(type, package)` pair
per classification pass; the `peer_dependency` and `override_risk` checks do
not deduplicate and can emit several records with the same
`(type, package)` pair (witnessed here for `peer_dependency` by two stderr
warnings, both attributed to package `unknown`). -/
theorem claim_C1_dedup_amended :
    (∀ (g : IdGen) (c : Nat) (input : DetectInput) (facts : CollabFacts)
        (now : String) (p : String),
      ((detectConflicts g c input facts now).1.issues).countP
          (fun i => i.type == ConflictType.multiple_versions &&
            i.package == p) ≤ 1 ∧
      ((detectConflicts g c input facts now).1.issues).countP
          (fun i => i.type == ConflictType.workspace_mismatch &&
            i.package == p) ≤ 1 ∧
      ((detectConflicts g c input facts now).1.issues).countP
          (fun i => i.type == ConflictType.engine_mismatch &&
            i.package == p) ≤ 1) ∧
    ((detectConflicts (fun n => toString n) 0 ⟨[.peer_dependency], .all⟩
        peerDupFacts "t").1.issues).countP
      (fun i => i.type == ConflictType.peer_dependency &&
        i.package == "unknown") = 2 := by
  constructor
  · intro g c input facts now p
    have hc := collect_countP_le_of_type g c input facts p
    exact ⟨le_trans (detect_countP_le g c input facts now _) hc.1,
      le_trans (detect_countP_le g c input facts now _) hc.2.1,
      le_trans (detect_countP_le g c input facts now _) hc.2.2⟩
  · decide

/-- Counterexample to claim C2 as stated: `^18.0.0` is not a `>=` range, so
the claimed simplified comparator treats it as satisfied (no record), yet
the engine_mismatch check on runtime `16.0.0` emits one `error` record —
it evaluates the range with full semver rather than the simplified
comparator. -/
theorem claim_C2_counterexample :
    isNodeVersionSatisfied "16.0.0" "^18.0.0" = true ∧
    matchGeMajor "^18.0.0" = none ∧
    ((detectEngineMismatch (fun n => toString n) 0 pjCaret18 "16.0.0").1).map
      stripId = [engineIssueVal "^18.0.0" "16.0.0"] := by
  refine ⟨by decide, by decide, ?_⟩
  decide

/-- Claim C2 amended: the engine_mismatch check of `detect_conflicts`
evaluates `engines.node` with the full semver `satisfies` (failing closed on
malformed ranges), emitting its `error` record exactly when that check
fails; the simplified comparator — only `>=`/`>` ranges with a leading
numeric major compared against the current major version, all other syntax
treated as satisfied — is the one implemented by `detect_environment`'s
`isNodeVersionSatisfied`. -/
theorem claim_C2_engine_full_semver :
    (∀ (g : IdGen) (c : Nat) (pj : PackageJson) (current : String),
      ((detectEngineMismatch g c pj current).1).map stripId =
        (match pj.engines.bind EnginesField.node with
         | some required =>
           if required.isEmpty then []
           else if satisfiesVersion current required then []
           else [engineIssueVal required current]
         | none => [])) ∧
    (∀ (current required : String) (major : Nat),
      matchGeMajor required = some major →
        isNodeVersionSatisfied current required =
          (match jsParseInt (String.mk (current.data.takeWhile (· ≠ '.'))) with
           | some currentMajor => decide (currentMajor ≥ (major : Int))
           | none => false)) ∧
    (∀ current required, matchGeMajor required = none →
      isNodeVersionSatisfied current required = true) := by
  refine ⟨?_, ?_, ?_⟩
  · intro g c pj current
    unfold detectEngineMismatch
    cases pj.engines.bind EnginesField.node with
    | none => rfl
    | some required =>
      by_cases h1 : required.isEmpty
      · simp [h1]
      · simp only [h1, Bool.false_eq_true, if_false, if_neg]
        by_cases h2 : satisfiesVersion current required
        · simp [h2]
        · simp only [h2, Bool.false_eq_true, if_false, if_neg]
          rfl
  · intro current required major hm
    unfold isNodeVersionSatisfied
    rw [hm]
  · intro current required hm
    unfold isNodeVersionSatisfied
    rw [hm]

/-- Witness for C2: the simplified comparator does fire on `>=18`
(rejecting a 16.x runtime), and treats the non-`>=` range `^18.0.0` as
satisfied. -/
theorem claim_C2_witness :
    matchGeMajor ">=18" = some 18 ∧
    isNodeVersionSatisfied "16.9.1" ">=18" = false ∧
    isNodeVersionSatisfied "16.0.0" "^18.0.0" = true := by
  refine ⟨by decide, ?_, ?_⟩
  · have h := claim_C2_engine_full_semver.2.1 "16.9.1" ">=18" 18 (by decide)
    rw [h]
    decide
  · exact claim_C2_engine_full_semver.2.2 "16.0.0" "^18.0.0" (by decide)

theorem mem_insertDescByRec {e x : MatrixEntry} {l : List MatrixEntry} :
    x ∈ insertDescByRec e l ↔ x = e ∨ x ∈ l := by
  induction l with
  | nil => simp [insertDescByRec]
  | cons y ys ih =>
    unfold insertDescByRec
    by_cases h : y.recommendation < e.recommendation
    · simp only [if_pos h, List.mem_cons]
    · simp only [if_neg h, List.mem_cons, ih]
      tauto

theorem insertDescByRec_sorted {e : MatrixEntry} {l : List MatrixEntry}
    (h : DescRec l) : DescRec (insertDescByRec e l) := by
  induction l with
  | nil => simp [insertDescByRec, DescRec]
  | cons x xs ih =>
    unfold DescRec at h ⊢
    rw [List.pairwise_cons] at h
    unfold insertDescByRec
    by_cases hc : x.recommendation < e.recommendation
    · rw [if_pos hc]
      rw [List.pairwise_cons]
      constructor
      · intro y hy
        rcases List.mem_cons.mp hy with h1 | h1
        · subst h1; exact Nat.le_of_lt hc
        · exact Nat.le_trans (h.1 y h1) (Nat.le_of_lt hc)
      · rw [List.pairwise_cons]
        exact h
    · rw [if_neg hc]
      rw [List.pairwise_cons]
      constructor
      · intro y hy
        rcases mem_insertDescByRec.mp hy with h1 | h1
        · subst h1; exact Nat.le_of_not_lt hc
        · exact h.1 y h1
      · exact ih h.2

theorem sortDescByRec_facts (l : List MatrixEntry) :
    DescRec (sortDescByRec l) ∧ ∀ x, (x ∈ sortDescByRec l ↔ x ∈ l) := by
  unfold sortDescByRec
  have main : ∀ (l : List MatrixEntry) (acc : List MatrixEntry),
      DescRec acc →
      DescRec (l.foldl (fun a e => insertDescByRec e a) acc) ∧
      ∀ x, (x ∈ l.foldl (fun a e => insertDescByRec e a) acc ↔
        x ∈ acc ∨ x ∈ l) := by
    intro l
    induction l with
    | nil =>
      intro acc hacc
      exact ⟨hacc, by simp⟩
    | cons e rest ih =>
      intro acc hacc
      have h1 := ih (insertDescByRec e acc) (insertDescByRec_sorted hacc)
      refine ⟨h1.1, ?_⟩
      intro x
      rw [List.foldl_cons, (h1.2 x), mem_insertDescByRec]
      simp only [List.mem_cons]
      tauto
  have h := main l [] (by simp [DescRec])
  exact ⟨h.1, fun x => by rw [h.2 x]; simp⟩

theorem generateComparison_recommended (sols : List Solution)
    (hne : sols ≠ []) (hids : ∀ s ∈ sols, ¬s.id.isEmpty = true) :
    ∃ e ∈ (generateComparison sols).matrix,
      (generateComparison sols).recommended = some e.solutionId ∧
      ∀ e2 ∈ (generateComparison sols).matrix,
        e2.recommendation ≤ e.recommendation := by
  have hfacts := sortDescByRec_facts (sols.map (fun s =>
    ⟨s.id, s.title, riskToNumber s.risk.level, effortToNumber s.estimatedEffort,
      s.recommendation.score⟩))
  cases hsorted : sortDescByRec (sols.map (fun s =>
      ⟨s.id, s.title, riskToNumber s.risk.level,
        effortToNumber s.estimatedEffort, s.recommendation.score⟩)) with
  | nil =>
    exfalso
    cases sols with
    | nil => exact hne rfl
    | cons s rest =>
      have : (⟨s.id, s.title, riskToNumber s.risk.level,
          effortToNumber s.estimatedEffort, s.recommendation.score⟩ :
          MatrixEntry) ∈ sortDescByRec _ :=
        ((hfacts.2 _).mpr (by simp))
      rw [hsorted] at this
      cases this
  | cons e0 rest =>
    have he0mem : e0 ∈ sols.map (fun s =>
        (⟨s.id, s.title, riskToNumber s.risk.level,
          effortToNumber s.estimatedEffort, s.recommendation.score⟩ :
          MatrixEntry)) := by
      rw [← hfacts.2 e0, hsorted]
      exact List.mem_cons_self _ _
    have hid0 : ¬e0.solutionId.isEmpty = true := by
      rcases List.mem_map.mp he0mem with ⟨s, hs, hes⟩
      rw [← hes]
      exact hids s hs
    refine ⟨e0, he0mem, ?_, ?_⟩
    · show (match (sortDescByRec _).head? with
        | some e => if e.solutionId.isEmpty then none else some e.solutionId
        | none => none) = some e0.solutionId
      rw [hsorted]
      simp only [List.head?_cons]
      rw [if_neg hid0]
    · intro e2 he2
      have he2s : e2 ∈ sortDescByRec (sols.map (fun s =>
          ⟨s.id, s.title, riskToNumber s.risk.level,
            effortToNumber s.estimatedEffort, s.recommendation.score⟩)) :=
        (hfacts.2 e2).mpr he2
      rw [hsorted] at he2s
      rcases List.mem_cons.mp he2s with h1 | h1
      · subst h1; exact Nat.le_refl _
      · have hsort := hfacts.1
        rw [hsorted] at hsort
        unfold DescRec at hsort
        rw [List.pairwise_cons] at hsort
        exact hsort.1 e2 h1

/-- Claim C5: for a package that is not a direct dependency of the root,
with a known latest version (and no explicit target version or workspace
members in play), the Solution Generator produces exactly the
upgrade-to-latest candidate (score 90, non-breaking since `from` is absent)
followed by the force-pin override candidate (score 65); the comparison
recommends the upgrade (whose score is maximal in the matrix); and in
general the comparison always recommends a candidate of maximal
recommendation score. -/
theorem claim_C5_solutions (g : IdGen) (c : Nat) (packageName : String)
    (pj : PackageJson) (pm strategy : String) (constraints : Constraints)
    (latest : String)
    (hdep : List.lookup packageName pj.dependencies = none)
    (hdev : List.lookup packageName pj.devDependencies = none)
    (hlat : ¬latest.isEmpty = true)
    (hid : ¬(g c).isEmpty = true) :
    ((generatePackageSolutions g c packageName none pj [] pm strategy
        constraints (some latest)).1.map (fun s =>
          (s.recommendation.score, s.compatibility.breakingChanges,
            s.title))) =
      [(90, false, "升级 " ++ packageName ++ " 到最新版本"),
       (65, false, "使用 " ++ getOverrideField pm ++ " 强制 " ++ packageName ++
         " 版本")] ∧
    (generateComparison (generatePackageSolutions g c packageName none pj []
        pm strategy constraints (some latest)).1).recommended = some (g c) ∧
    (∀ e ∈ (generateComparison (generatePackageSolutions g c packageName none
        pj [] pm strategy constraints (some latest)).1).matrix,
      e.recommendation ≤ 90) ∧
    (∀ (sols2 : List Solution), sols2 ≠ [] →
      (∀ s ∈ sols2, ¬s.id.isEmpty = true) →
      ∃ e ∈ (generateComparison sols2).matrix,
        (generateComparison sols2).recommended = some e.solutionId ∧
        ∀ e2 ∈ (generateComparison sols2).matrix,
          e2.recommendation ≤ e.recommendation) := by
  have hsols : (generatePackageSolutions g c packageName none pj [] pm
      strategy constraints (some latest)).1.map (fun s =>
        (s.id, s.recommendation.score, s.compatibility.breakingChanges,
          s.title)) =
      [(g c, 90, false, "升级 " ++ packageName ++ " 到最新版本"),
       (g (c + 1), 65, false, "使用 " ++ getOverrideField pm ++ " 强制 " ++
         packageName ++ " 版本")] := by
    unfold generatePackageSolutions
    simp only [hdep, hdev, jsOr, isMajorUpgrade, Option.isSome_none,
      Bool.not_false, hlat]
    simp
  refine ⟨?_, ?_, ?_, fun sols2 hne hids =>
    generateComparison_recommended sols2 hne hids⟩
  · have h1 := congrArg
      (List.map (fun t : String × Nat × Bool × String => t.2)) hsols
    rw [List.map_map] at h1
    exact h1
  · cases hs : (generatePackageSolutions g c packageName none pj [] pm
        strategy constraints (some latest)).1 with
    | nil => rw [hs] at hsols; cases hsols
    | cons s1 rest =>
      cases rest with
      | nil => rw [hs] at hsols; simp at hsols
      | cons s2 rest2 =>
        cases rest2 with
        | cons s3 rest3 => rw [hs] at hsols; simp at hsols
        | nil =>
          rw [hs] at hsols
          simp only [List.map_cons, List.map_nil, List.cons.injEq,
            Prod.mk.injEq, and_true] at hsols
          obtain ⟨⟨hid1, hsc1, _, _⟩, ⟨hid2, hsc2, _, _⟩⟩ := hsols
          show (match (sortDescByRec ([s1, s2].map (fun s =>
              ⟨s.id, s.title, riskToNumber s.risk.level,
                effortToNumber s.estimatedEffort,
                s.recommendation.score⟩))).head? with
            | some e => if e.solutionId.isEmpty then none
                        else some e.solutionId
            | none => none) = some (g c)
          have hsort : sortDescByRec ([s1, s2].map (fun s =>
              (⟨s.id, s.title, riskToNumber s.risk.level,
                effortToNumber s.estimatedEffort,
                s.recommendation.score⟩ : MatrixEntry))) =
              [⟨s1.id, s1.title, riskToNumber s1.risk.level,
                effortToNumber s1.estimatedEffort, s1.recommendation.score⟩,
               ⟨s2.id, s2.title, riskToNumber s2.risk.level,
                effortToNumber s2.estimatedEffort,
                s2.recommendation.score⟩] := by
            unfold sortDescByRec
            simp only [List.map_cons, List.map_nil, List.foldl_cons,
              List.foldl_nil, insertDescByRec, hsc1, hsc2]
            rw [if_neg (by omega)]
          rw [hsort]
          simp only [List.head?_cons]
          rw [if_neg (by rw [hid1]; exact hid), hid1]
  · cases hs : (generatePackageSolutions g c packageName none pj [] pm
        strategy constraints (some latest)).1 with
    | nil => rw [hs] at hsols; cases hsols
    | cons s1 rest =>
      cases rest with
      | nil => rw [hs] at hsols; simp at hsols
      | cons s2 rest2 =>
        cases rest2 with
        | cons s3 rest3 => rw [hs] at hsols; simp at hsols
        | nil =>
          rw [hs] at hsols
          simp only [List.map_cons, List.map_nil, List.cons.injEq,
            Prod.mk.injEq, and_true] at hsols
          obtain ⟨⟨hid1, hsc1, _, _⟩, ⟨hid2, hsc2, _, _⟩⟩ := hsols
          intro e he
          show e.recommendation ≤ 90
          rcases List.mem_map.mp he with ⟨s, hsmem, hes⟩
          rcases List.mem_cons.mp hsmem with h1 | h1
          · subst h1
            rw [← hes]
            simp only [hsc1]
            omega
          · rcases List.mem_cons.mp h1 with h2 | h2
            · subst h2
              rw [← hes]
              simp only [hsc2]
              omega
            · cases h2

/-- Witness for C5: a transitive package `leftpad` with latest `2.0.0`
yields the score-90 upgrade and score-65 override candidates, and the
comparison recommends the upgrade candidate's id. -/
theorem claim_C5_witness :
    ((generatePackageSolutions (fun n => toString n) 0 "leftpad" none {} []
        "npm" "balanced" {} (some "2.0.0")).1.map
      (fun s => s.recommendation.score)) = [90, 65] ∧
    (generateComparison (generatePackageSolutions (fun n => toString n) 0
        "leftpad" none {} [] "npm" "balanced" {}
        (some "2.0.0")).1).recommended = some "0" := by
  have h := claim_C5_solutions (fun n => toString n) 0 "leftpad" {} "npm"
    "balanced" {} "2.0.0" (by decide) (by decide) (by decide) (by decide)
  exact ⟨by decide, h.2.1⟩

end DepDoctor
